import Mathlib

/-
Verification development for the neurokernel base module
(src/neurokernel/base.py).  The Python classes BaseModule, Broker,
BaseConnectivity and BaseManager are shallowly embedded as Lean
definitions; theorems below settle the frozen claims about them.

Modelling conventions:
* scipy lil_matrix values are modelled as total functions Nat -> Nat -> Int
  together with an explicit shape; an entry that was never written is 0,
  exactly as in a lil matrix.  All parameter values are modelled as Int
  (the source fixes a dtype per matrix at first write; the claims under
  study never depend on the dtype).
* Python exceptions (ValueError, AssertionError, KeyError, IndexError)
  become an Err value returned through Except, or, for the mutating
  `set`, a `state, Option Err` pair, since a Python exception thrown in
  midstream leaves the mutations already performed in place.
* The string keys of BaseConnectivity._data have the shape
  "src/dst/conn/param"; they are modelled structurally as the tuple
  (src, dst, conn, param), which matches string-key equality because
  module IDs and parameter names contain no '/' in every use in the
  repository.
* Python dicts are modelled as association lists with first-match lookup
  and update-in-place-or-append assignment, which preserves exactly the
  key/value behaviour the source relies on.
-/

namespace Neurokernel

/-- String literals used by the source, bound to names once. -/
def emptyS : String := ""

def idA : String := "A"

def idB : String := "B"

def idC : String := "C"

def srcS : String := "s"

def bogusS : String := "bogus"

def pConn : String := "conn"

def pW : String := "w"

def nNone : String := "none"

def nCtrl : String := "ctrl"

def nIn : String := "in"

def nOut : String := "out"

def nFull : String := "full"

/-- Kinds of Python exceptions the modelled code can raise:
ValueError with the message invalid module ID (spec name UnknownModule),
AssertionError in the constructor (spec name InvalidShape), KeyError on a
missing dict key, IndexError on an out-of-range matrix index, ValueError
from other sources. -/
inductive Err where
  | UnknownModule : Err
  | InvalidShape : Err
  | KeyError : Err
  | IndexError : Err
  | ValueErr : Err
  deriving DecidableEq

instance exceptDecEq {ε α : Type} [DecidableEq ε] [DecidableEq α] :
    DecidableEq (Except ε α) := fun x y =>
  match x, y with
  | .ok a, .ok b =>
      if h : a = b then .isTrue (by rw [h])
      else .isFalse (fun hc => h (Except.ok.inj hc))
  | .error a, .error b =>
      if h : a = b then .isTrue (by rw [h])
      else .isFalse (fun hc => h (Except.error.inj hc))
  | .ok _, .error _ => .isFalse (fun hc => Except.noConfusion hc)
  | .error _, .ok _ => .isFalse (fun hc => Except.noConfusion hc)

/-- A scipy.sparse lil_matrix: a shape plus total entry function;
entries that were never written read as 0. -/
structure Mat where
  rows : Nat
  cols : Nat
  entries : Nat → Nat → Int

/-- lil_matrix(shape): all entries zero. -/
def zeroMat (r c : Nat) : Mat := ⟨r, c, fun _ _ => 0⟩

/-- Pointwise write m[i, j] = v (bounds are checked by the callers,
as scipy raises IndexError before reaching the write). -/
def matWrite (m : Mat) (i j : Nat) (v : Int) : Mat :=
  ⟨m.rows, m.cols, fun a b => if a = i ∧ b = j then v else m.entries a b⟩

/-- m.T -/
def matT (m : Mat) : Mat := ⟨m.cols, m.rows, fun i j => m.entries j i⟩

/-- m.nnz != 0: some in-shape entry is nonzero.  lil matrices never hold
explicitly stored zeros (assigning 0 deletes the entry), so nnz != 0 is
exactly the existence of a nonzero in-shape entry. -/
def matHasNonzero (m : Mat) : Bool :=
  (List.range m.rows).any (fun i =>
    (List.range m.cols).any (fun j => m.entries i j ≠ 0))

/-- A _data key "src/dst/conn/param", modelled structurally. -/
abbrev Key := String × String × Nat × String

/-- Reverse the direction in a key, as transpose() does by splitting the
string key on '/' and swapping the first two components. -/
def flipKey (k : Key) : Key := (k.2.1, k.1, k.2.2.1, k.2.2.2)

/-- First-match lookup in an association list (Python dict read). -/
def lookupD (d : List (Key × Mat)) (k : Key) : Option Mat :=
  match d with
  | [] => none
  | p :: rest => if p.1 = k then some p.2 else lookupD rest k

/-- Python dict assignment d[k] = m: replace the entry in place when the
key is present, append otherwise. -/
def dictSet (d : List (Key × Mat)) (k : Key) (m : Mat) : List (Key × Mat) :=
  match d with
  | [] => [(k, m)]
  | p :: rest => if p.1 = k then (k, m) :: rest else p :: dictSet rest k m

/-- BaseConnectivity state: sizes, the two module IDs, the _data dict and
the two _keys_by_dir lists (keysAB for direction A_id->B_id, keysBA for
B_id->A_id). -/
structure BaseConnectivity where
  N_A : Nat
  N_B : Nat
  N_mult : Nat
  A_id : String
  B_id : String
  data : List (Key × Mat)
  keysAB : List Key
  keysBA : List Key

/-- Body of BaseConnectivity.__init__ after its asserts: create the two
empty adjacency matrices for connection 0 in both directions. -/
def mkRaw (nA nB nMult : Nat) (aId bId : String) : BaseConnectivity :=
  { N_A := nA
    N_B := nB
    N_mult := nMult
    A_id := aId
    B_id := bId
    data := [((aId, bId, 0, pConn), zeroMat nA nB),
             ((bId, aId, 0, pConn), zeroMat nB nA)]
    keysAB := [(aId, bId, 0, pConn)]
    keysBA := [(bId, aId, 0, pConn)] }

/-- BaseConnectivity.__init__: the asserts (N_A != 0, N_B != 0,
N_mult != 0, A_id != B_id, len(A_id) != 0, len(B_id) != 0) in source
order, then the construction. -/
def mkChecked (nA nB nMult : Nat) (aId bId : String) :
    Except Err BaseConnectivity :=
  if nA = 0 then .error .InvalidShape
  else if nB = 0 then .error .InvalidShape
  else if nMult = 0 then .error .InvalidShape
  else if aId = bId then .error .InvalidShape
  else if aId = emptyS then .error .InvalidShape
  else if bId = emptyS then .error .InvalidShape
  else .ok (mkRaw nA nB nMult aId bId)

/-- BaseConnectivity._validate_mod_names: raise ValueError unless
set((A_id, B_id)) == set((self.A_id, self.B_id)), written as mutual
inclusion of the two-element collections. -/
def validate_mod_names (c : BaseConnectivity) (s d : String) :
    Except Err Unit :=
  if (s = c.A_id ∨ s = c.B_id) ∧ (d = c.A_id ∨ d = c.B_id) ∧
     (c.A_id = s ∨ c.A_id = d) ∧ (c.B_id = s ∨ c.B_id = d)
  then .ok () else .error .UnknownModule

/-- BaseConnectivity.N -/
def N (c : BaseConnectivity) (mid : String) : Except Err Nat :=
  if mid = c.A_id then .ok c.N_A
  else if mid = c.B_id then .ok c.N_B
  else .error .UnknownModule

/-- BaseConnectivity.other_mod -/
def other_mod (c : BaseConnectivity) (mid : String) : Except Err String :=
  if mid = c.A_id then .ok c.B_id
  else if mid = c.B_id then .ok c.A_id
  else .error .UnknownModule

/-- self._keys_by_dir[dir]: the dict holds exactly the directions
(A_id, B_id) and (B_id, A_id); any other key raises KeyError. -/
def keysFor (c : BaseConnectivity) (s d : String) : Except Err (List Key) :=
  if (s, d) = (c.A_id, c.B_id) then .ok c.keysAB
  else if (s, d) = (c.B_id, c.A_id) then .ok c.keysBA
  else .error .KeyError

/-- The loop of is_connected: walk the keys of a direction and return
True at the first matrix with nnz != 0; a key absent from _data raises
KeyError at the moment it is dereferenced. -/
def connScan (d : List (Key × Mat)) : List Key → Except Err Bool
  | [] => .ok false
  | k :: rest =>
    match lookupD d k with
    | none => .error .KeyError
    | some m => if matHasNonzero m then .ok true else connScan d rest

/-- BaseConnectivity.is_connected -/
def is_connected (c : BaseConnectivity) (s d : String) : Except Err Bool := do
  validate_mod_names c s d
  let ks ← keysFor c s d
  connScan c.data ks

/-- An index argument of get: a scalar port index or a Python
slice(start, stop) with the usual defaults.  Step-1 slices over
non-negative bounds are the only forms the repository uses. -/
inductive Idx where
  | scalar : Nat → Idx
  | slice : Option Nat → Option Nat → Idx

/-- The positions an index argument selects in a dimension of the
given size.  Python slices clamp to the dimension and never raise. -/
def idxSel (n : Nat) : Idx → List Nat
  | .scalar i => [i]
  | .slice a b => (List.range n).filter
      (fun t => decide (a.getD 0 ≤ t) && decide (t < b.getD n))

/-- Whether indexing succeeds: scipy bound-checks scalar indices
(IndexError), while slices always succeed. -/
def idxOk (n : Nat) : Idx → Bool
  | .scalar i => decide (i < n)
  | .slice _ _ => true

/-- The submatrix m[si, di] selected by two index arguments — also the
value of result.toarray(), which keeps shape and entries. -/
def subMat (m : Mat) (si di : Idx) : Mat :=
  ⟨(idxSel m.rows si).length, (idxSel m.cols di).length,
   fun a b => m.entries ((idxSel m.rows si).getD a 0)
     ((idxSel m.cols di).getD b 0)⟩

/-- Result of get: np.isscalar distinguishes a stored scalar (both
indices scalar) from a submatrix, which is returned densified through
toarray(). -/
inductive GetResult where
  | scalar : Int → GetResult
  | submatrix : Mat → GetResult

/-- BaseConnectivity.get.  Note that in the source the default branch
computes dir = self._AtoB and the next statement unconditionally
reassigns dir = '/'.join((src_id, dest_id)), so the key is always
built from the arguments as given; validation runs unless both IDs are
the empty string.  A missing backing matrix raises KeyError; an
out-of-range scalar index raises IndexError; a scalar pair returns the
stored scalar, any slice form returns the selected submatrix. -/
def get (c : BaseConnectivity) (s : String) (si : Idx) (d : String)
    (di : Idx) (conn : Nat) (param : String) : Except Err GetResult := do
  if s = emptyS ∧ d = emptyS then pure () else validate_mod_names c s d
  match lookupD c.data (s, d, conn, param) with
  | none => .error .KeyError
  | some m =>
    if idxOk m.rows si ∧ idxOk m.cols di then
      match si, di with
      | .scalar i, .scalar j => .ok (.scalar (m.entries i j))
      | _, _ => .ok (.submatrix (subMat m si di))
    else .error .IndexError

/-- BaseConnectivity.set with scalar indices.  Source order: validate;
build the key (dir is reassigned unconditionally, as in get); when the
key is absent create the matrix, append the key to _keys_by_dir[dir]
(KeyError when dir is neither stored direction), and increment N_mult by
one when conn+1 > N_mult; finally write the entry (IndexError when the
indices are out of range).  The pair result carries the state together
with the exception, if any, because an exception thrown midway leaves
the mutations already performed in place. -/
def set (c : BaseConnectivity) (s : String) (i : Nat) (d : String) (j : Nat)
    (conn : Nat) (param : String) (val : Int) :
    BaseConnectivity × Option Err :=
  if ¬(s = emptyS ∧ d = emptyS) ∧ validate_mod_names c s d = .error .UnknownModule
  then (c, some .UnknownModule)
  else
    let key : Key := (s, d, conn, param)
    match lookupD c.data key with
    | some m =>
      if i < m.rows ∧ j < m.cols then
        ({ c with data := dictSet c.data key (matWrite m i j val) }, none)
      else (c, some .IndexError)
    | none =>
      let m0 := if (s, d) = (c.A_id, c.B_id) then zeroMat c.N_A c.N_B
                else zeroMat c.N_B c.N_A
      let cD := { c with data := dictSet c.data key m0 }
      if (s, d) = (c.A_id, c.B_id) ∨ (s, d) = (c.B_id, c.A_id) then
        let c2 :=
          if (s, d) = (c.A_id, c.B_id) then
            { cD with keysAB := cD.keysAB ++ [key],
                      N_mult := if c.N_mult < conn + 1 then c.N_mult + 1
                                else c.N_mult }
          else
            { cD with keysBA := cD.keysBA ++ [key],
                      N_mult := if c.N_mult < conn + 1 then c.N_mult + 1
                                else c.N_mult }
        if i < m0.rows ∧ j < m0.cols then
          ({ c2 with data := dictSet c2.data key (matWrite m0 i j val) }, none)
        else (c2, some .IndexError)
      else (cD, some .KeyError)

/-- The list comprehension building m_list: for each key of the
direction, dereference it in _data (KeyError when missing) and apply
the port selection, in list order. -/
def getSelMats (d : List (Key × Mat)) (sel : Mat → Except Err Mat) :
    List Key → Except Err (List Mat)
  | [] => .ok []
  | k :: rest =>
    match lookupD d k with
    | none => .error .KeyError
    | some m => do
      let m2 ← sel m
      let ms ← getSelMats d sel rest
      .ok (m2 :: ms)

/-- Column selection m[:, dest_ports].  none models the default
slice(None, None), which keeps the matrix whole; a list of column
indices models an explicit port selection, with the IndexError scipy
raises when an index is out of range. -/
def selectColsE (ports : Option (List Nat)) (m : Mat) : Except Err Mat :=
  match ports with
  | none => .ok m
  | some cols =>
    if cols.all (fun j => decide (j < m.cols)) then
      .ok ⟨m.rows, cols.length, fun i jj => m.entries i (cols.getD jj 0)⟩
    else .error .IndexError

/-- Row selection m[src_ports, :], symmetric to selectColsE. -/
def selectRowsE (ports : Option (List Nat)) (m : Mat) : Except Err Mat :=
  match ports with
  | none => .ok m
  | some rows =>
    if rows.all (fun i => decide (i < m.rows)) then
      .ok ⟨rows.length, m.cols, fun ii j => m.entries (rows.getD ii 0) j⟩
    else .error .IndexError

/-- Matrix addition as performed by np.sum over the list of sparse
matrices.  The source would raise on mismatched shapes; all call sites
reach it with equishaped matrices, which the theorems assume. -/
def addMat (a b : Mat) : Mat :=
  ⟨a.rows, a.cols, fun i j => a.entries i j + b.entries i j⟩

/-- BaseConnectivity.src_mask: select the requested destination columns
of every matrix of the direction, sum the selections, and take np.any
along axis 1.  np.sum of an empty list is the scalar 0.0, whose
toarray() call fails; that corner is the ValueErr case. -/
def src_mask (c : BaseConnectivity) (s d : String)
    (dest_ports : Option (List Nat)) : Except Err (List Bool) := do
  let dir ←
    if s = emptyS ∧ d = emptyS then pure (c.A_id, c.B_id)
    else do
      validate_mod_names c s d
      pure (s, d)
  let ks ← keysFor c dir.1 dir.2
  let sel ← getSelMats c.data (selectColsE dest_ports) ks
  match sel with
  | [] => .error .ValueErr
  | m0 :: rest =>
    let total := rest.foldl addMat m0
    .ok ((List.range total.rows).map (fun i =>
      (List.range total.cols).any (fun jj => total.entries i jj ≠ 0)))

/-- BaseConnectivity.src_idx: np.arange(self.N(src_id))[mask]. -/
def src_idx (c : BaseConnectivity) (s d : String)
    (dest_ports : Option (List Nat)) : Except Err (List Nat) :=
  if s = emptyS ∧ d = emptyS then do
    let mask ← src_mask c c.A_id c.B_id dest_ports
    let n ← N c c.A_id
    .ok ((List.range n).filter (fun i => mask.getD i false))
  else do
    validate_mod_names c s d
    let mask ← src_mask c s d dest_ports
    let n ← N c s
    .ok ((List.range n).filter (fun i => mask.getD i false))

/-- BaseConnectivity.dest_mask: select the requested source rows, sum,
np.any along axis 0. -/
def dest_mask (c : BaseConnectivity) (s d : String)
    (src_ports : Option (List Nat)) : Except Err (List Bool) := do
  let dir ←
    if s = emptyS ∧ d = emptyS then pure (c.A_id, c.B_id)
    else do
      validate_mod_names c s d
      pure (s, d)
  let ks ← keysFor c dir.1 dir.2
  let sel ← getSelMats c.data (selectRowsE src_ports) ks
  match sel with
  | [] => .error .ValueErr
  | m0 :: rest =>
    let total := rest.foldl addMat m0
    .ok ((List.range total.cols).map (fun j =>
      (List.range total.rows).any (fun ii => total.entries ii j ≠ 0)))

/-- BaseConnectivity.dest_idx -/
def dest_idx (c : BaseConnectivity) (s d : String)
    (src_ports : Option (List Nat)) : Except Err (List Nat) :=
  if s = emptyS ∧ d = emptyS then do
    let mask ← dest_mask c c.A_id c.B_id src_ports
    let n ← N c c.B_id
    .ok ((List.range n).filter (fun j => mask.getD j false))
  else do
    validate_mod_names c s d
    let mask ← dest_mask c s d src_ports
    let n ← N c d
    .ok ((List.range n).filter (fun j => mask.getD j false))

/-- Checks that every _data key lies in one of the object's two
directions.  Any other key makes the source's transpose loop raise
KeyError at c._keys_by_dir[new_dir]; such keys can enter _data through
set with both IDs empty, which stores the foreign key before raising. -/
def dirOkKeys (aId bId : String) (d : List (Key × Mat)) : Bool :=
  d.all (fun p => (p.1.1, p.1.2.1) = (aId, bId) ∨ (p.1.1, p.1.2.1) = (bId, aId))

/-- The loop of transpose() over self._data.keys(): write the
transposed matrix under the direction-flipped key into the fresh
object's dict, then append the key to its direction's list.  bId and
aId are the fresh object's A and B IDs (the original's B_id and A_id);
the accumulator carries (dict, A-to-B keys, B-to-A keys) of the fresh
object.  When the flipped direction is neither of the fresh object's
directions the source's c._keys_by_dir[new_dir].append raises KeyError;
the half-mutated fresh object is local to transpose, so the exception
is all the caller observes. -/
def transposeLoop (bId aId : String) (d : List (Key × Mat))
    (acc : List (Key × Mat) × List Key × List Key) :
    Except Err (List (Key × Mat) × List Key × List Key) :=
  match d with
  | [] => .ok acc
  | p :: rest =>
    let k := flipKey p.1
    let d2 := dictSet acc.1 k (matT p.2)
    if (k.1, k.2.1) = (bId, aId) then
      transposeLoop bId aId rest (d2, acc.2.1 ++ [k], acc.2.2)
    else if (k.1, k.2.1) = (aId, bId) then
      transposeLoop bId aId rest (d2, acc.2.1, acc.2.2 ++ [k])
    else .error .KeyError

/-- BaseConnectivity.transpose: construct the flipped object through
the asserting constructor, reset both of its _keys_by_dir lists, then
run the loop over the original's _data. -/
def transpose (c : BaseConnectivity) : Except Err BaseConnectivity := do
  let c0 ← mkChecked c.N_B c.N_A c.N_mult c.B_id c.A_id
  let r ← transposeLoop c.B_id c.A_id c.data (c0.data, [], [])
  .ok { c0 with data := r.1, keysAB := r.2.1, keysBA := r.2.2 }

/-- Broker working state: the shrinking list of (src, dst) coordinates
still expected this tick and the list of (src, dst, payload) triples
accumulated for routing. -/
structure BrokerState (P : Type) where
  recv_coords_list : List (String × String)
  data_to_route : List (String × String × P)
  deriving DecidableEq

/-- Broker._data_handler on a well-formed two-part frame from src in_id
carrying (out_id, data).  coords is the value of routing_table.coords
used for the reset.  Returns the new state and the list of
(destination, (source, payload)) frames sent out, in order.  Python's
list.remove drops the first occurrence, as List.erase does. -/
def data_handler {P : Type} (coords : List (String × String))
    (st : BrokerState P) (in_id out_id : String) (data : P) :
    BrokerState P × List (String × (String × P)) :=
  let st1 : BrokerState P :=
    if (in_id, out_id) ∈ st.recv_coords_list then
      ⟨st.recv_coords_list.erase (in_id, out_id),
       st.data_to_route ++ [(in_id, out_id, data)]⟩
    else st
  if st1.recv_coords_list.isEmpty then
    (⟨coords, []⟩, st1.data_to_route.map (fun t => (t.2.1, (t.1, t.2.2))))
  else (st1, [])

/-- BaseModule._get_in_data: fold the incoming buffer into in_dict
(later entries for the same source overwrite earlier ones, as dict
assignment does) and clear the buffer.  The buffer is filled by _sync
exclusively with two-element (source, payload) tuples whose payload is
not the None sentinel, so the malformed-entry branch of the source never
fires on them; entries are therefore modelled as pairs.  The dict is a
total function to Option, matching Python dict lookup. -/
def get_in_data {V : Type} (inDict : String → Option V)
    (inData : List (String × V)) :
    (String → Option V) × List (String × V) :=
  (inData.foldl (fun dct e => Function.update dct e.1 (some e.2)) inDict, [])

/-- The allowed values of BaseModule.net. -/
def allowedNets : List String := [nNone, nCtrl, nIn, nOut, nFull]

/-- The net property setter: reject any value outside the allowed five
with ValueError (raised before the backing attribute is written). -/
def net_setter (value : String) : Except Err String :=
  if value ∈ allowedNets then .ok value else .error .ValueErr

/-- Effect of the statement self.net = value on the stored attribute:
the new value when the setter accepts, the old one when it raises. -/
def netAssign (old value : String) : String :=
  match net_setter value with
  | .ok v => v
  | .error _ => old

/-- Net-state update performed by BaseModule.add_conn, given whether the
added connectivity has an outbound (self -> peer) and an inbound
(peer -> self) edge.  Mirrors the three conditional blocks of the
source; every assignment goes through the net setter. -/
def add_conn_net (net : String) (outb inb : Bool) : String :=
  let n1 := if net = nNone then netAssign net nCtrl else net
  let n2 :=
    if outb then
      if n1 = nCtrl then netAssign n1 nOut
      else if n1 = nIn then netAssign n1 nFull
      else n1
    else n1
  if inb then
    if n2 = nCtrl then netAssign n2 nIn
    else if n2 = nOut then netAssign n2 nFull
    else n2
  else n2

/-- Run a sequence of add_conn net updates. -/
def runAddConns (steps : List (Bool × Bool)) (net : String) : String :=
  steps.foldl (fun n s => add_conn_net n s.1 s.2) net

/-- The spec's partial order on net states:
none ≺ ctrl ≺ each of in, out ≺ full, with in and out incomparable. -/
def netLe (a b : String) : Bool :=
  a = b ∨
  (a = nNone ∧ (b = nCtrl ∨ b = nIn ∨ b = nOut ∨ b = nFull)) ∨
  (a = nCtrl ∧ (b = nIn ∨ b = nOut ∨ b = nFull)) ∨
  ((a = nIn ∨ a = nOut) ∧ b = nFull)

/-- Modelled from the spec: RoutingTable (routing_table.py is not under
src/) — a set of directed edges over module IDs; routing_table[a, b] = 1
adds the edge (a, b) when absent. -/
def rtAdd (t : List (String × String)) (e : String × String) :
    List (String × String) :=
  if e ∈ t then t else t ++ [e]

/-- The routing-table fragment of BaseManager.connect: after wiring the
modules, add (A, B) when conn.is_connected(A, B) and (B, A) when
conn.is_connected(B, A).  is_connected can raise, in which case connect
propagates the exception. -/
def connect_routing (t : List (String × String)) (c : BaseConnectivity)
    (aId bId : String) : Except Err (List (String × String)) := do
  let b1 ← is_connected c aId bId
  let t1 := if b1 then rtAdd t (aId, bId) else t
  let b2 ← is_connected c bId aId
  .ok (if b2 then rtAdd t1 (bId, aId) else t1)

/-- key k maps in the dict to a matrix of shape (r, cl). -/
def keyMatOk (d : List (Key × Mat)) (r cl : Nat) (k : Key) : Bool :=
  match lookupD d k with
  | some m => m.rows = r ∧ m.cols = cl
  | none => false

/-- Shape well-formedness of a connectivity state: every key of the
A-to-B list maps to an (N_A, N_B) matrix and every key of the B-to-A
list to an (N_B, N_A) matrix. -/
def wfMats (c : BaseConnectivity) : Bool :=
  c.keysAB.all (keyMatOk c.data c.N_A c.N_B) &&
  c.keysBA.all (keyMatOk c.data c.N_B c.N_A)

/-- Dict well-formedness of a connectivity state: no duplicate keys in
_data and the two constructor-created adjacency keys present. -/
def wfKeys (c : BaseConnectivity) : Prop :=
  (c.data.map Prod.fst).Nodup ∧
  (lookupD c.data (c.A_id, c.B_id, 0, pConn)).isSome = true ∧
  (lookupD c.data (c.B_id, c.A_id, 0, pConn)).isSome = true

/-- The _keys_by_dir list of a direction, for stating properties of
src_mask (total counterpart of keysFor on the two valid directions). -/
def dirKeys (c : BaseConnectivity) (s d : String) : List Key :=
  if (s, d) = (c.A_id, c.B_id) then c.keysAB else c.keysBA

/-- Sum, over every parameter matrix of the direction, of the entry at
(i, j); a dangling key contributes 0 (well-formed states have none). -/
def dirEntrySum (c : BaseConnectivity) (s d : String) (i j : Nat) : Int :=
  ((dirKeys c s d).map (fun k =>
    match lookupD c.data k with
    | some m => m.entries i j
    | none => 0)).sum

/-- The claim's reading of src_idx, following the spec's words: the
sorted positions i such that some selected destination port j and some
connection index k < N_mult have a nonzero entry of the 'conn'
adjacency matrix at (i, j). -/
def specSrcIdx (c : BaseConnectivity) (s d : String) (ports : List Nat) :
    List Nat :=
  (List.range (if s = c.A_id then c.N_A else c.N_B)).filter (fun i =>
    ports.any (fun j =>
      (List.range c.N_mult).any (fun k =>
        match lookupD c.data (s, d, k, pConn) with
        | some m => m.entries i j ≠ 0
        | none => false)))

/-- Matrix equality in the sense of the spec: same shape and the same
entry at every position. -/
def MatEqv (a b : Mat) : Prop :=
  a.rows = b.rows ∧ a.cols = b.cols ∧ ∀ i j, a.entries i j = b.entries i j

/-- Optional-matrix equality: both absent, or both present and equal
entry-wise. -/
def OMatEqv : Option Mat → Option Mat → Prop
  | none, none => True
  | some a, some b => MatEqv a b
  | _, _ => False

/-- in_dict of a module after the ingest of a first tick whose buffer
holds one payload from source s. -/
def tick1Dict : String → Option Int :=
  (get_in_data (fun _ => none) [(srcS, 7)]).1

/-- in_dict of the same module after the ingest of a second tick in
which s sent the None sentinel, so the buffer is empty. -/
def tick2Dict : String → Option Int := (get_in_data tick1Dict []).1

/-- A 1x1 connectivity on which set is called with connection index 2
while N_mult is 1. -/
def exC3 : BaseConnectivity := mkRaw 1 1 1 idA idB

/-- A 1x1 connectivity whose only nonzero lives in a parameter matrix
named w; every 'conn' adjacency entry is zero. -/
def exC4 : BaseConnectivity :=
  (set (mkRaw 1 1 1 idA idB) idA 0 idB 0 0 pW 1).1

/-- A fresh 1x1 connectivity with no matrix at connection index 1. -/
def exC5 : BaseConnectivity := mkRaw 1 1 1 idA idB

/-- A 1x2 connectivity for exercising the transpose round trip. -/
def exC7 : BaseConnectivity := mkRaw 1 2 1 idA idB

/-- A 1x1 connectivity with one A-to-B adjacency entry set. -/
def exC8conn : BaseConnectivity :=
  (set (mkRaw 1 1 1 idA idB) idA 0 idB 0 0 pConn 1).1

/-- A 2x2 connectivity with no connections at all. -/
def exC8empty : BaseConnectivity := mkRaw 2 2 1 idA idB

/-- C1: for every reachable broker state (the expected set is nonempty,
or nothing is pending and the coordinate snapshot is empty) and every
well-formed incoming frame, a frame whose (src, dst) is not expected is
dropped with no state change and no output; an expected frame is
appended to data_to_route and its coordinates removed from the expected
set; and exactly when the expected set becomes empty every accumulated
(src, dst, payload) triple is sent to dst as (src, payload), after
which data_to_route is reset to [] and the expected set to the routing
table's coordinates. -/
theorem broker_data_handler_spec {P : Type}
    (coords expected : List (String × String))
    (dtr : List (String × String × P)) (src dst : String) (payload : P)
    (hinv : expected ≠ [] ∨ (dtr = [] ∧ coords = [])) :
    ((src, dst) ∉ expected →
      data_handler coords ⟨expected, dtr⟩ src dst payload
        = (⟨expected, dtr⟩, [])) ∧
    ((src, dst) ∈ expected →
      (expected.erase (src, dst) ≠ [] →
        data_handler coords ⟨expected, dtr⟩ src dst payload
          = (⟨expected.erase (src, dst), dtr ++ [(src, dst, payload)]⟩, [])) ∧
      (expected.erase (src, dst) = [] →
        data_handler coords ⟨expected, dtr⟩ src dst payload
          = (⟨coords, []⟩, (dtr ++ [(src, dst, payload)]).map
              (fun t => (t.2.1, (t.1, t.2.2)))))) := by
  constructor
  · intro hmem
    by_cases hE : expected = []
    · subst hE
      rcases hinv with h | ⟨hd, hc⟩
      · exact absurd rfl h
      · subst hd; subst hc
        simp [data_handler]
    · simp [data_handler, hmem, hE]
  · intro hmem
    constructor
    · intro hne
      simp [data_handler, hmem, hne]
    · intro heq
      simp [data_handler, hmem, heq]

/-- Witness for C1 at a concrete one-edge routing table, with the
reachability hypothesis discharged. -/
theorem broker_data_handler_spec_witness :
    (([(idA, idB)] : List (String × String)) ≠ [] ∨
      (([] : List (String × String × Int)) = [] ∧
        ([(idA, idB)] : List (String × String)) = [])) ∧
    (((idA, idB) ∉ ([(idA, idB)] : List (String × String)) →
      data_handler [(idA, idB)] ⟨[(idA, idB)], []⟩ idA idB (0 : Int)
        = (⟨[(idA, idB)], []⟩, [])) ∧
    ((idA, idB) ∈ ([(idA, idB)] : List (String × String)) →
      (([(idA, idB)] : List (String × String)).erase (idA, idB) ≠ [] →
        data_handler [(idA, idB)] ⟨[(idA, idB)], []⟩ idA idB (0 : Int)
          = (⟨([(idA, idB)] : List (String × String)).erase (idA, idB),
              [] ++ [(idA, idB, (0 : Int))]⟩, [])) ∧
      (([(idA, idB)] : List (String × String)).erase (idA, idB) = [] →
        data_handler [(idA, idB)] ⟨[(idA, idB)], []⟩ idA idB (0 : Int)
          = (⟨[(idA, idB)], []⟩,
              (([] : List (String × String × Int))
                ++ [(idA, idB, (0 : Int))]).map
                (fun t => (t.2.1, (t.1, t.2.2))))))) :=
  ⟨Or.inl (by decide),
    broker_data_handler_spec [(idA, idB)] [(idA, idB)] [] idA idB (0 : Int)
      (Or.inl (by decide))⟩

/-- C2 counterexample: in tick 1 the module receives payload 7 from
source s; in tick 2 s sends only the sentinel, so the tick-2 buffer is
empty, yet after the tick-2 ingest in_dict still maps s to 7 — an entry
that was not received during the current tick.  This falsifies the
claim that in_dict maps a source to a payload only if that payload was
received from that source during the current tick. -/
theorem in_dict_stale_entry_counterexample :
    tick2Dict srcS = some 7 ∧
    ∀ p : Int, (srcS, p) ∉ ([] : List (String × Int)) := by
  constructor
  · simp [tick2Dict, tick1Dict, get_in_data, Function.update]
  · intro p
    simp

/-- C2 (amended): after the ingest phase, in_dict maps a source s to
the payload of the last entry for s in the current tick's incoming
buffer; when the buffer holds no entry for s (sentinel or nothing sent)
it retains whatever mapping it had before the tick, since entries are
never removed; and the incoming buffer is cleared. -/
theorem get_in_data_last_write_spec {V : Type} (dct : String → Option V)
    (buf : List (String × V)) (s : String) :
    (get_in_data dct buf).1 s =
      Option.elim ((buf.filter (fun e => e.1 == s)).getLast?)
        (dct s) (fun e => some e.2) ∧
    (get_in_data dct buf).2 = [] := by
  constructor
  · induction buf generalizing dct with
    | nil => rfl
    | cons e rest ih =>
      have hstep :
          (get_in_data dct (e :: rest)).1 s
            = (get_in_data (Function.update dct e.1 (some e.2)) rest).1 s := rfl
      rw [hstep, ih]
      by_cases he : e.1 = s
      · subst he
        simp only [List.filter_cons, beq_self_eq_true, if_pos]
        rcases hlast : (rest.filter (fun x => x.1 == e.1)).getLast? with _ | x
        · have hnil : rest.filter (fun x => x.1 == e.1) = [] :=
            List.getLast?_eq_none_iff.mp hlast
          simp [hnil, Function.update]
        · have hcons :
              ((e :: rest.filter (fun x => x.1 == e.1)).getLast?) = some x := by
            rcases hfe : rest.filter (fun x => x.1 == e.1) with _ | ⟨y, ys⟩
            · rw [hfe] at hlast; simp at hlast
            · rw [hfe] at hlast
              rw [hfe]
              rw [List.getLast?_cons_cons]
              exact hlast
          simp only [hlast, Option.elim]
          rw [hcons]
      · have hne : (e.1 == s) = false := beq_false_of_ne he
        simp only [List.filter_cons, hne, if_neg, Bool.false_eq_true,
          not_false_iff]
        have : Function.update dct e.1 (some e.2) s = dct s :=
          Function.update_noteq (Ne.symm he) _ _
        rw [this]
  · rfl

/-- C3: evaluation of set at the failing input.  On a fresh 1x1
connectivity with N_mult = 1, set with connection index conn = 2 >= 1
creates the new backing matrix but only increments N_mult by one, to 2,
whereas the claim (and the documented meaning of N_mult as the maximum
number of connections) requires conn + 1 = 3. -/
theorem set_N_mult_increment_bug :
    exC3.N_mult = 1 ∧
    (set exC3 idA 0 idB 0 2 pConn 1).1.N_mult = 2 ∧
    ¬ (set exC3 idA 0 idB 0 2 pConn 1).1.N_mult = 2 + 1 := by
  refine ⟨rfl, ?_, ?_⟩ <;> decide

/-- C10: the net attribute starts at 'none' and, across any sequence of
assignment attempts, only ever holds one of the five allowed values;
an assignment of any other value raises ValueError and leaves the
stored value unchanged. -/
theorem net_value_validation :
    (∀ vs : List String, vs.foldl netAssign nNone ∈ allowedNets) ∧
    (∀ old v : String, v ∉ allowedNets →
      net_setter v = .error .ValueErr ∧ netAssign old v = old) := by
  have step : ∀ old v, old ∈ allowedNets → netAssign old v ∈ allowedNets := by
    intro old v ho
    by_cases hv : v ∈ allowedNets
    · simp [netAssign, net_setter, hv]
    · simp [netAssign, net_setter, hv, ho]
  constructor
  · have gen : ∀ (vs : List String) (old : String), old ∈ allowedNets →
        vs.foldl netAssign old ∈ allowedNets := by
      intro vs
      induction vs with
      | nil => intro old ho; exact ho
      | cons v rest ih =>
        intro old ho
        exact ih (netAssign old v) (step old v ho)
    intro vs
    exact gen vs nNone (by decide)
  · intro old v hv
    constructor
    · simp [net_setter, hv]
    · simp [netAssign, net_setter, hv]

/-- Witness for C10: assigning the string bogus to net fails with
ValueError and the previous value ctrl is retained. -/
theorem net_value_validation_witness :
    bogusS ∉ allowedNets ∧
    (net_setter bogusS = .error .ValueErr ∧ netAssign nCtrl bogusS = nCtrl) :=
  ⟨by decide, net_value_validation.2 nCtrl bogusS (by decide)⟩

/-- One add_conn net update keeps the value among the allowed nets and
never moves it down the spec's partial order. -/
theorem addConn_step (n : String) (o i : Bool) (hn : n ∈ allowedNets) :
    add_conn_net n o i ∈ allowedNets ∧ netLe n (add_conn_net n o i) = true := by
  fin_cases hn <;> cases o <;> cases i <;> decide

/-- netLe is transitive on the allowed net values. -/
theorem netLe_trans (a b c : String) (ha : a ∈ allowedNets)
    (hb : b ∈ allowedNets) (hc : c ∈ allowedNets)
    (h1 : netLe a b = true) (h2 : netLe b c = true) : netLe a c = true := by
  fin_cases ha <;> fin_cases hb <;> fin_cases hc <;>
    revert h1 h2 <;> decide

/-- Any run of add_conn updates from an allowed net value stays allowed
and never descends in the partial order. -/
theorem runAddConns_mono (l : List (Bool × Bool)) :
    ∀ n : String, n ∈ allowedNets →
      runAddConns l n ∈ allowedNets ∧ netLe n (runAddConns l n) = true := by
  induction l with
  | nil =>
    intro n hn
    refine ⟨hn, ?_⟩
    simp [runAddConns, netLe]
  | cons s rest ih =>
    intro n hn
    have h1 := addConn_step n s.1 s.2 hn
    have h2 := ih (add_conn_net n s.1 s.2) h1.1
    have hrun : runAddConns (s :: rest) n
        = runAddConns rest (add_conn_net n s.1 s.2) := rfl
    rw [hrun]
    exact ⟨h2.1, netLe_trans n (add_conn_net n s.1 s.2)
      (runAddConns rest (add_conn_net n s.1 s.2)) hn h1.1 h2.1 h1.2 h2.2⟩

/-- C6: over a module's lifetime the net state never regresses in the
partial order none ≺ ctrl ≺ each of in, out ≺ full: starting from the
initial state 'none', after any sequence of add_conn calls the state
reached by any later extension of the sequence is ≽ the earlier one. -/
theorem net_mode_monotonic (steps extra : List (Bool × Bool)) :
    netLe (runAddConns steps nNone) (runAddConns (steps ++ extra) nNone)
      = true := by
  have hsplit : runAddConns (steps ++ extra) nNone
      = runAddConns extra (runAddConns steps nNone) := by
    simp [runAddConns, List.foldl_append]
  rw [hsplit]
  have h1 := runAddConns_mono steps nNone (by decide)
  exact (runAddConns_mono extra (runAddConns steps nNone) h1.1).2

/-- _validate_mod_names raises ValueError whenever one of the two IDs
is not an ID of the object. -/
theorem validate_fails (c : BaseConnectivity) (s d : String)
    (hsd : (s ≠ c.A_id ∧ s ≠ c.B_id) ∨ (d ≠ c.A_id ∧ d ≠ c.B_id)) :
    validate_mod_names c s d = .error .UnknownModule := by
  have hcond : ¬ ((s = c.A_id ∨ s = c.B_id) ∧ (d = c.A_id ∨ d = c.B_id) ∧
      (c.A_id = s ∨ c.A_id = d) ∧ (c.B_id = s ∨ c.B_id = d)) := by
    rcases hsd with ⟨h1, h2⟩ | ⟨h1, h2⟩
    · rintro ⟨hx, -, -, -⟩
      rcases hx with h | h
      · exact h1 h
      · exact h2 h
    · rintro ⟨-, hx, -, -⟩
      rcases hx with h | h
      · exact h1 h
      · exact h2 h
  simp [validate_mod_names, hcond]

/-- C9: every BaseConnectivity operation taking module IDs fails with
the UnknownModule error (ValueError) when called with an ID that is not
one of the object's two IDs, leaving the object unchanged (set returns
the untouched state); and construction fails with the InvalidShape
error (AssertionError) when N_A = 0, N_B = 0, the IDs are identical, or
an ID is empty.  The hypothesis hs excludes the empty-string pair,
which the source treats as an explicit request for the default
direction rather than as module IDs (module IDs are non-empty). -/
theorem unknown_module_and_invalid_shape_errors
    (c : BaseConnectivity) (x s d param : String) (i j conn : Nat)
    (val : Int) (ports : Option (List Nat))
    (hx : x ≠ c.A_id ∧ x ≠ c.B_id)
    (hsd : (s ≠ c.A_id ∧ s ≠ c.B_id) ∨ (d ≠ c.A_id ∧ d ≠ c.B_id))
    (hs : ¬(s = emptyS ∧ d = emptyS)) :
    N c x = .error .UnknownModule ∧
    other_mod c x = .error .UnknownModule ∧
    is_connected c s d = .error .UnknownModule ∧
    src_mask c s d ports = .error .UnknownModule ∧
    src_idx c s d ports = .error .UnknownModule ∧
    dest_mask c s d ports = .error .UnknownModule ∧
    dest_idx c s d ports = .error .UnknownModule ∧
    get c s (.scalar i) d (.scalar j) conn param = .error .UnknownModule ∧
    set c s i d j conn param val = (c, some Err.UnknownModule) ∧
    (∀ (nA nB nMult : Nat) (aId bId : String),
      nA = 0 ∨ nB = 0 ∨ aId = bId ∨ aId = emptyS ∨ bId = emptyS →
      mkChecked nA nB nMult aId bId = .error .InvalidShape) := by
  have hval : validate_mod_names c s d = .error .UnknownModule :=
    validate_fails c s d hsd
  refine ⟨?_, ?_, ?_, ?_, ?_, ?_, ?_, ?_, ?_, ?_⟩
  · simp [N, hx.1, hx.2]
  · simp [other_mod, hx.1, hx.2]
  · simp [is_connected, hval, Bind.bind, Except.bind]
  · simp [src_mask, hs, hval, Bind.bind, Except.bind]
  · simp [src_idx, hs, hval, Bind.bind, Except.bind]
  · simp [dest_mask, hs, hval, Bind.bind, Except.bind]
  · simp [dest_idx, hs, hval, Bind.bind, Except.bind]
  · simp [get, hs, hval, Bind.bind, Except.bind]
  · simp [set, hs, hval]
  · intro nA nB nMult aId bId h
    unfold mkChecked
    split_ifs with h1 h2 h3 h4 h5 h6
    · rfl
    · rfl
    · rfl
    · rfl
    · rfl
    · rfl
    · exfalso
      rcases h with h | h | h | h | h
      · exact h1 h
      · exact h2 h
      · exact h4 h
      · exact h5 h
      · exact h6 h

/-- Witness for C9 on a concrete 2x3 connectivity between A and B,
probed with the unknown module ID C (and constructor inputs 0, 0, equal
IDs, empty ID). -/
theorem unknown_module_and_invalid_shape_errors_witness :
    ((idC ≠ (mkRaw 2 3 1 idA idB).A_id ∧ idC ≠ (mkRaw 2 3 1 idA idB).B_id) ∧
     ((idC ≠ (mkRaw 2 3 1 idA idB).A_id ∧ idC ≠ (mkRaw 2 3 1 idA idB).B_id) ∨
       (idB ≠ (mkRaw 2 3 1 idA idB).A_id ∧ idB ≠ (mkRaw 2 3 1 idA idB).B_id)) ∧
     ¬(idC = emptyS ∧ idB = emptyS)) ∧
    (N (mkRaw 2 3 1 idA idB) idC = .error .UnknownModule ∧
     other_mod (mkRaw 2 3 1 idA idB) idC = .error .UnknownModule ∧
     is_connected (mkRaw 2 3 1 idA idB) idC idB = .error .UnknownModule ∧
     src_mask (mkRaw 2 3 1 idA idB) idC idB none = .error .UnknownModule ∧
     src_idx (mkRaw 2 3 1 idA idB) idC idB none = .error .UnknownModule ∧
     dest_mask (mkRaw 2 3 1 idA idB) idC idB none = .error .UnknownModule ∧
     dest_idx (mkRaw 2 3 1 idA idB) idC idB none = .error .UnknownModule ∧
     get (mkRaw 2 3 1 idA idB) idC (.scalar 0) idB (.scalar 0) 0 pConn
       = .error .UnknownModule ∧
     set (mkRaw 2 3 1 idA idB) idC 0 idB 0 0 pConn 1
       = (mkRaw 2 3 1 idA idB, some Err.UnknownModule) ∧
     (∀ (nA nB nMult : Nat) (aId bId : String),
       nA = 0 ∨ nB = 0 ∨ aId = bId ∨ aId = emptyS ∨ bId = emptyS →
       mkChecked nA nB nMult aId bId = .error .InvalidShape)) :=
  ⟨⟨by decide, Or.inl (by decide), by decide⟩,
    unknown_module_and_invalid_shape_errors (mkRaw 2 3 1 idA idB) idC idC idB
      pConn 0 0 0 1 none (by decide) (Or.inl (by decide)) (by decide)⟩

/-- Membership after a routing-table add. -/
theorem mem_rtAdd (t : List (String × String)) (e x : String × String) :
    x ∈ rtAdd t e ↔ x = e ∨ x ∈ t := by
  unfold rtAdd
  split_ifs with h
  · constructor
    · exact fun hx => Or.inr hx
    · rintro (rfl | hx)
      · exact h
      · exact hx
  · simp [List.mem_append, or_comm]

/-- C8 counterexample: the routing table already holds the edge (A, B)
from an earlier connect; connecting the same pair again with a
connectivity object that has no connections leaves the edge in place,
so after the call the table contains (A, B) while is_connected(A, B) is
false — the claimed equivalence fails. -/
theorem connect_routing_stale_edge_counterexample :
    connect_routing [(idA, idB)] exC8empty idA idB = .ok [(idA, idB)] ∧
    is_connected exC8empty idA idB = .ok false ∧
    (idA, idB) ∈ ([(idA, idB)] : List (String × String)) := by
  refine ⟨?_, ?_, ?_⟩ <;> decide

/-- C8 (amended): after the routing-table update of
manager.connect(a, b, C) returns, the table contains (a, b) iff
C.is_connected(a, b) or the table contained (a, b) before the call, and
symmetrically for (b, a); edges are only ever added, never removed. -/
theorem connect_routing_table_spec (t : List (String × String))
    (c : BaseConnectivity) (a b : String) (t2 : List (String × String))
    (h : connect_routing t c a b = .ok t2) :
    ((a, b) ∈ t2 ↔ (is_connected c a b = .ok true ∨ (a, b) ∈ t)) ∧
    ((b, a) ∈ t2 ↔ (is_connected c b a = .ok true ∨ (b, a) ∈ t)) := by
  unfold connect_routing at h
  rcases h1 : is_connected c a b with e1 | b1
  · rw [h1] at h
    simp [Bind.bind, Except.bind] at h
  · rw [h1] at h
    rcases h2 : is_connected c b a with e2 | b2
    · rw [h2] at h
      simp [Bind.bind, Except.bind] at h
    · rw [h2] at h
      simp only [Bind.bind, Except.bind] at h
      have ht2 : (if b2 then rtAdd (if b1 then rtAdd t (a, b) else t) (b, a)
          else if b1 then rtAdd t (a, b) else t) = t2 := by
        exact Except.ok.inj h
      subst ht2
      by_cases hab : a = b
      · subst hab
        have hbb : b1 = b2 := by
          have := h1.symm.trans h2
          exact (Except.ok.inj this)
        subst hbb
        cases b1 <;>
          simp [mem_rtAdd, h1, h2]
      · have hne1 : ¬ ((a, b) = (b, a)) := by
          intro hpair
          exact hab (congrArg Prod.fst hpair)
        have hne2 : ¬ ((b, a) = (a, b)) := by
          intro hpair
          exact hab ((congrArg Prod.snd hpair))
        cases b1 <;> cases b2 <;>
          simp [mem_rtAdd, h1, h2, hne1, hne2]

/-- Witness for C8 on an empty routing table and a connectivity with
one A-to-B connection: the edge (A, B) is added and the equivalences
hold. -/
theorem connect_routing_table_spec_witness :
    connect_routing [] exC8conn idA idB = .ok [(idA, idB)] ∧
    (((idA, idB) ∈ ([(idA, idB)] : List (String × String))) ↔
      (is_connected exC8conn idA idB = .ok true ∨
        (idA, idB) ∈ ([] : List (String × String)))) ∧
    (((idB, idA) ∈ ([(idA, idB)] : List (String × String))) ↔
      (is_connected exC8conn idB idA = .ok true ∨
        (idB, idA) ∈ ([] : List (String × String)))) :=
  ⟨by decide,
    connect_routing_table_spec [] exC8conn idA idB [(idA, idB)] (by decide)⟩

/-- Lookup after a dict assignment. -/
theorem lookupD_dictSet (d : List (Key × Mat)) (k k2 : Key) (m : Mat) :
    lookupD (dictSet d k m) k2 = if k2 = k then some m else lookupD d k2 := by
  induction d with
  | nil =>
    by_cases hk : k2 = k
    · subst hk
      simp [dictSet, lookupD]
    · simp [dictSet, lookupD, hk, Ne.symm hk]
  | cons p rest ih =>
    by_cases hpk : p.1 = k
    · by_cases hk : k2 = k
      · subst hk
        simp [dictSet, lookupD, hpk]
      · have hk2 : ¬ (k = k2) := fun h => hk h.symm
        simp [dictSet, lookupD, hpk, hk, hk2]
    · by_cases hp2 : p.1 = k2
      · have hk : ¬ (k2 = k) := fun h => hpk (hp2.trans h)
        simp [dictSet, lookupD, hpk, hp2, hk]
      · simp [dictSet, lookupD, hpk, hp2, ih]

/-- The keys of a dict after an assignment: unchanged when the key was
present, the key appended otherwise. -/
theorem dictSet_keys (d : List (Key × Mat)) (k : Key) (m : Mat) :
    (dictSet d k m).map Prod.fst =
      if k ∈ d.map Prod.fst then d.map Prod.fst
      else d.map Prod.fst ++ [k] := by
  induction d with
  | nil => simp [dictSet]
  | cons p rest ih =>
    by_cases hpk : p.1 = k
    · simp [dictSet, hpk]
    · have hk : ¬ (k = p.1) := fun h => hpk h.symm
      by_cases hmem : k ∈ rest.map Prod.fst
      · simp [dictSet, hpk, ih, hmem, hk]
      · simp [dictSet, hpk, ih, hmem, hk]

/-- Dict assignment preserves key distinctness. -/
theorem dictSet_nodup (d : List (Key × Mat)) (k : Key) (m : Mat)
    (h : (d.map Prod.fst).Nodup) :
    ((dictSet d k m).map Prod.fst).Nodup := by
  rw [dictSet_keys]
  split_ifs with hm
  · exact h
  · simp [List.nodup_append, h, hm]

/-- The m_list comprehension succeeds and yields the selected matrices
pointwise when every key dereferences and every selection succeeds. -/
theorem getSelMats_ok (d : List (Key × Mat)) (sel : Mat → Except Err Mat)
    (ks : List Key) (f g : Key → Mat)
    (h : ∀ k ∈ ks, lookupD d k = some (f k))
    (h2 : ∀ k ∈ ks, sel (f k) = .ok (g k)) :
    getSelMats d sel ks = .ok (ks.map g) := by
  induction ks with
  | nil => rfl
  | cons k rest ih =>
    have hk := h k (List.mem_cons_self k rest)
    have hk2 := h2 k (List.mem_cons_self k rest)
    have hrest : ∀ x ∈ rest, lookupD d x = some (f x) :=
      fun x hx => h x (List.mem_cons_of_mem k hx)
    have hrest2 : ∀ x ∈ rest, sel (f x) = .ok (g x) :=
      fun x hx => h2 x (List.mem_cons_of_mem k hx)
    simp [getSelMats, hk, hk2, ih hrest hrest2, Bind.bind, Except.bind]

/-- np.sum over a matrix list preserves the shape of the first
summand. -/
theorem foldl_addMat_rows (l : List Mat) (m0 : Mat) :
    (l.foldl addMat m0).rows = m0.rows := by
  induction l generalizing m0 with
  | nil => rfl
  | cons a rest ih => simpa [addMat] using ih (addMat m0 a)

theorem foldl_addMat_cols (l : List Mat) (m0 : Mat) :
    (l.foldl addMat m0).cols = m0.cols := by
  induction l generalizing m0 with
  | nil => rfl
  | cons a rest ih => simpa [addMat] using ih (addMat m0 a)

/-- np.sum over a matrix list is the pointwise sum of entries. -/
theorem foldl_addMat_entries (l : List Mat) (m0 : Mat) (i j : Nat) :
    (l.foldl addMat m0).entries i j
      = m0.entries i j + (l.map (fun m => m.entries i j)).sum := by
  induction l generalizing m0 with
  | nil => simp
  | cons a rest ih =>
    rw [List.foldl_cons, ih (addMat m0 a)]
    simp [addMat, add_assoc]

/-- Lookup in the _data dict of a freshly constructed connectivity. -/
theorem mkRaw_lookup (nA nB nMult : Nat) (k : Key) :
    lookupD (mkRaw nA nB nMult idA idB).data k =
      if k = (idA, idB, 0, pConn) then some (zeroMat nA nB)
      else if k = (idB, idA, 0, pConn) then some (zeroMat nB nA)
      else none := by
  by_cases h1 : k = (idA, idB, 0, pConn)
  · subst h1
    simp [mkRaw, lookupD]
  · by_cases h2 : k = (idB, idA, 0, pConn)
    · subst h2
      simp [mkRaw, lookupD, idA, idB, pConn]
    · simp [mkRaw, lookupD, h1, h2, Ne.symm h1, Ne.symm h2]

theorem mkRaw_A_id (nA nB nMult : Nat) (a b : String) :
    (mkRaw nA nB nMult a b).A_id = a := rfl

theorem mkRaw_B_id (nA nB nMult : Nat) (a b : String) :
    (mkRaw nA nB nMult a b).B_id = b := rfl

theorem mkRaw_N_A (nA nB nMult : Nat) (a b : String) :
    (mkRaw nA nB nMult a b).N_A = nA := rfl

theorem mkRaw_N_B (nA nB nMult : Nat) (a b : String) :
    (mkRaw nA nB nMult a b).N_B = nB := rfl

theorem mkRaw_N_mult (nA nB nMult : Nat) (a b : String) :
    (mkRaw nA nB nMult a b).N_mult = nMult := rfl

theorem mkRaw_keysAB (nA nB nMult : Nat) (a b : String) :
    (mkRaw nA nB nMult a b).keysAB = [(a, b, 0, pConn)] := rfl

theorem mkRaw_keysBA (nA nB nMult : Nat) (a b : String) :
    (mkRaw nA nB nMult a b).keysBA = [(b, a, 0, pConn)] := rfl

theorem zeroMat_rows (r c : Nat) : (zeroMat r c).rows = r := rfl

theorem zeroMat_cols (r c : Nat) : (zeroMat r c).cols = c := rfl

theorem matWrite_rows (m : Mat) (i j : Nat) (v : Int) :
    (matWrite m i j v).rows = m.rows := rfl

theorem matWrite_cols (m : Mat) (i j : Nat) (v : Int) :
    (matWrite m i j v).cols = m.cols := rfl

theorem matWrite_entries_same (m : Mat) (i j : Nat) (v : Int) :
    (matWrite m i j v).entries i j = v := by
  simp [matWrite]

/-- A successful scalar get: valid IDs, an existing backing matrix and
in-range indices yield the stored entry. -/
theorem get_ok_of_lookup (c : BaseConnectivity) (s d : String)
    (i j conn : Nat) (param : String) (m : Mat)
    (hv : validate_mod_names c s d = .ok ())
    (hne2 : ¬(s = emptyS ∧ d = emptyS))
    (hlk : lookupD c.data (s, d, conn, param) = some m)
    (hi : i < m.rows) (hj : j < m.cols) :
    get c s (.scalar i) d (.scalar j) conn param
      = .ok (.scalar (m.entries i j)) := by
  simp [get, hne2, hv, hlk, idxOk, hi, hj, Bind.bind, Except.bind]

/-- A successful full-slice get: valid IDs and an existing backing
matrix yield the selected submatrix, densified. -/
theorem get_slice_of_lookup (c : BaseConnectivity) (s d : String)
    (conn : Nat) (param : String) (m : Mat)
    (hv : validate_mod_names c s d = .ok ())
    (hne2 : ¬(s = emptyS ∧ d = emptyS))
    (hlk : lookupD c.data (s, d, conn, param) = some m) :
    get c s (.slice none none) d (.slice none none) conn param
      = .ok (.submatrix (subMat m (.slice none none) (.slice none none))) := by
  simp [get, hne2, hv, hlk, idxOk, Bind.bind, Except.bind]

/-- A full slice selects every position of the dimension. -/
theorem idxSel_slice_none (n : Nat) :
    idxSel n (.slice none none) = List.range n := by
  show (List.range n).filter (fun t =>
      decide ((none : Option Nat).getD 0 ≤ t) &&
      decide (t < (none : Option Nat).getD n)) = List.range n
  apply List.filter_eq_self.mpr
  intro a ha
  simp [List.mem_range.mp ha]

theorem range_getD (n a : Nat) (h : a < n) :
    (List.range n).getD a 0 = a := by
  rw [List.getD_eq_getElem?_getD]
  simp [List.getElem?_range, h]

/-- The full-slice submatrix of a matrix has the same shape and the
same in-range entries. -/
theorem subMat_full (m : Mat) :
    (subMat m (.slice none none) (.slice none none)).rows = m.rows ∧
    (subMat m (.slice none none) (.slice none none)).cols = m.cols ∧
    ∀ a b, a < m.rows → b < m.cols →
      (subMat m (.slice none none) (.slice none none)).entries a b
        = m.entries a b := by
  refine ⟨?_, ?_, ?_⟩
  · show (idxSel m.rows (.slice none none)).length = m.rows
    rw [idxSel_slice_none, List.length_range]
  · show (idxSel m.cols (.slice none none)).length = m.cols
    rw [idxSel_slice_none, List.length_range]
  · intro a b ha hb
    show m.entries ((idxSel m.rows (.slice none none)).getD a 0)
        ((idxSel m.cols (.slice none none)).getD b 0) = m.entries a b
    rw [idxSel_slice_none, idxSel_slice_none, range_getD _ _ ha,
      range_getD _ _ hb]

/-- Writes elsewhere leave an entry unchanged. -/
theorem matWrite_entries_other (m : Mat) (i j a b : Nat) (v : Int)
    (h : ¬(a = i ∧ b = j)) :
    (matWrite m i j v).entries a b = m.entries a b := by
  simp [matWrite, h]

/-- C5 counterexample: on a fresh 1x1 connectivity, reading parameter
'conn' at connection index 1 — whose backing matrix was never created —
raises KeyError instead of returning the claimed 0. -/
theorem get_missing_matrix_counterexample :
    get exC5 idA (.scalar 0) idB (.scalar 0) 1 pConn = .error .KeyError ∧
    ∀ r : GetResult,
      ¬ get exC5 idA (.scalar 0) idB (.scalar 0) 1 pConn = .ok r := by
  constructor
  · rfl
  · intro r h
    rw [show get exC5 idA (.scalar 0) idB (.scalar 0) 1 pConn
        = .error .KeyError from rfl] at h
    exact Except.noConfusion h

/-- C5 (amended): with valid module IDs, a scalar in-range read of an
entry of an existing backing matrix that was never written returns the
scalar 0; a read whose backing matrix for (direction, conn, param) was
never created fails with KeyError; a scalar read after a set of the
same entry returns the stored scalar; and a read with slices supplied
returns the corresponding submatrix — here the full-slice pair, whose
submatrix has the matrix's shape, carries the stored value at the
written entry, and 0 everywhere else. -/
theorem get_stored_and_default_spec (nA nB nMult i j conn : Nat)
    (param : String) (val : Int) (hi : i < nA) (hj : j < nB) :
    get (mkRaw nA nB nMult idA idB) idA (.scalar i) idB (.scalar j) 0 pConn
      = .ok (.scalar 0) ∧
    (lookupD (mkRaw nA nB nMult idA idB).data (idA, idB, conn, param) = none →
      get (mkRaw nA nB nMult idA idB) idA (.scalar i) idB (.scalar j)
        conn param = .error .KeyError) ∧
    get ((set (mkRaw nA nB nMult idA idB) idA i idB j conn param val).1)
        idA (.scalar i) idB (.scalar j) conn param = .ok (.scalar val) ∧
    (∃ M : Mat,
      get ((set (mkRaw nA nB nMult idA idB) idA i idB j conn param val).1)
        idA (.slice none none) idB (.slice none none) conn param
        = .ok (.submatrix M) ∧
      M.rows = nA ∧ M.cols = nB ∧ M.entries i j = val ∧
      ∀ a b, a < nA → b < nB → ¬(a = i ∧ b = j) → M.entries a b = 0) := by
  have hval : validate_mod_names (mkRaw nA nB nMult idA idB) idA idB
      = .ok () := by
    simp [validate_mod_names, mkRaw]
  have hne : ¬ (idA = emptyS ∧ idB = emptyS) := by decide
  have hstA : ((set (mkRaw nA nB nMult idA idB) idA i idB j conn param
      val).1).A_id = idA ∧
      ((set (mkRaw nA nB nMult idA idB) idA i idB j conn param
        val).1).B_id = idB ∧
      lookupD ((set (mkRaw nA nB nMult idA idB) idA i idB j conn param
        val).1).data (idA, idB, conn, param)
        = some (matWrite (zeroMat nA nB) i j val) := by
    rcases hkey : lookupD (mkRaw nA nB nMult idA idB).data
        (idA, idB, conn, param) with _ | m
    · refine ⟨?_, ?_, ?_⟩
      · simp [set, hne, hval, hkey, mkRaw_A_id, mkRaw_B_id, mkRaw_N_A,
          mkRaw_N_B, zeroMat_rows, zeroMat_cols, hi, hj]
      · simp [set, hne, hval, hkey, mkRaw_A_id, mkRaw_B_id, mkRaw_N_A,
          mkRaw_N_B, zeroMat_rows, zeroMat_cols, hi, hj]
      · simp [set, hne, hval, hkey, mkRaw_A_id, mkRaw_B_id, mkRaw_N_A,
          mkRaw_N_B, zeroMat_rows, zeroMat_cols, hi, hj, lookupD_dictSet]
    · have hm : m = zeroMat nA nB ∧ conn = 0 ∧ param = pConn := by
        rw [mkRaw_lookup] at hkey
        by_cases h1 : ((idA, idB, conn, param) : Key) = (idA, idB, 0, pConn)
        · rw [if_pos h1] at hkey
          refine ⟨(Option.some.inj hkey).symm, ?_, ?_⟩
          · exact congrArg (fun k : Key => k.2.2.1) h1
          · exact congrArg (fun k : Key => k.2.2.2) h1
        · rw [if_neg h1] at hkey
          by_cases h2 : ((idA, idB, conn, param) : Key) = (idB, idA, 0, pConn)
          · exfalso
            have : idA = idB := congrArg (fun k : Key => k.1) h2
            exact absurd this (by decide)
          · rw [if_neg h2] at hkey
            exact absurd hkey (by simp)
      obtain ⟨rfl, rfl, rfl⟩ := hm
      refine ⟨?_, ?_, ?_⟩
      · simp [set, hne, hval, hkey, mkRaw_A_id, mkRaw_B_id, zeroMat_rows,
          zeroMat_cols, hi, hj]
      · simp [set, hne, hval, hkey, mkRaw_A_id, mkRaw_B_id, zeroMat_rows,
          zeroMat_cols, hi, hj]
      · simp [set, hne, hval, hkey, mkRaw_A_id, mkRaw_B_id, zeroMat_rows,
          zeroMat_cols, hi, hj, lookupD_dictSet]
  obtain ⟨hsA, hsB, hsLk⟩ := hstA
  have hv2 : validate_mod_names
      ((set (mkRaw nA nB nMult idA idB) idA i idB j conn param val).1)
      idA idB = .ok () := by
    simp [validate_mod_names, hsA, hsB]
  refine ⟨?_, ?_, ?_, ?_⟩
  · have hlk : lookupD (mkRaw nA nB nMult idA idB).data (idA, idB, 0, pConn)
        = some (zeroMat nA nB) := by
      simp [mkRaw_lookup]
    exact get_ok_of_lookup (mkRaw nA nB nMult idA idB) idA idB i j 0 pConn
      (zeroMat nA nB) hval hne hlk hi hj
  · intro hnone
    simp [get, hne, hval, hnone, Bind.bind, Except.bind]
  · have hg := get_ok_of_lookup
      ((set (mkRaw nA nB nMult idA idB) idA i idB j conn param val).1)
      idA idB i j conn param (matWrite (zeroMat nA nB) i j val) hv2 hne hsLk
      (by simpa [matWrite_rows, zeroMat_rows] using hi)
      (by simpa [matWrite_cols, zeroMat_cols] using hj)
    rw [hg, matWrite_entries_same]
  · refine ⟨subMat (matWrite (zeroMat nA nB) i j val)
      (.slice none none) (.slice none none), ?_, ?_, ?_, ?_, ?_⟩
    · exact get_slice_of_lookup
        ((set (mkRaw nA nB nMult idA idB) idA i idB j conn param val).1)
        idA idB conn param (matWrite (zeroMat nA nB) i j val) hv2 hne hsLk
    · rw [(subMat_full (matWrite (zeroMat nA nB) i j val)).1,
        matWrite_rows, zeroMat_rows]
    · rw [(subMat_full (matWrite (zeroMat nA nB) i j val)).2.1,
        matWrite_cols, zeroMat_cols]
    · rw [(subMat_full (matWrite (zeroMat nA nB) i j val)).2.2 i j hi hj,
        matWrite_entries_same]
    · intro a b ha hb hne3
      rw [(subMat_full (matWrite (zeroMat nA nB) i j val)).2.2 a b ha hb,
        matWrite_entries_other _ _ _ _ _ _ hne3]
      rfl

/-- Witness for C5 at a 1x1 connectivity, entry (0, 0), parameter w at
connection index 0, value 5, read back both as a scalar and through
the full-slice submatrix form. -/
theorem get_stored_and_default_spec_witness :
    ((0 : Nat) < 1 ∧ (0 : Nat) < 1) ∧
    (get (mkRaw 1 1 1 idA idB) idA (.scalar 0) idB (.scalar 0) 0 pConn
      = .ok (.scalar 0) ∧
    (lookupD (mkRaw 1 1 1 idA idB).data (idA, idB, 0, pW) = none →
      get (mkRaw 1 1 1 idA idB) idA (.scalar 0) idB (.scalar 0) 0 pW
        = .error .KeyError) ∧
    get ((set (mkRaw 1 1 1 idA idB) idA 0 idB 0 0 pW 5).1)
        idA (.scalar 0) idB (.scalar 0) 0 pW = .ok (.scalar 5) ∧
    (∃ M : Mat,
      get ((set (mkRaw 1 1 1 idA idB) idA 0 idB 0 0 pW 5).1)
        idA (.slice none none) idB (.slice none none) 0 pW
        = .ok (.submatrix M) ∧
      M.rows = 1 ∧ M.cols = 1 ∧ M.entries 0 0 = 5 ∧
      ∀ a b, a < 1 → b < 1 → ¬(a = 0 ∧ b = 0) → M.entries a b = 0)) :=
  ⟨⟨by decide, by decide⟩,
    get_stored_and_default_spec 1 1 1 0 0 0 pW 5 (by decide) (by decide)⟩

/-- getD on a mapped range evaluates the function (boolean-mask
indexing). -/
theorem range_map_getD (n : Nat) (f : Nat → Bool) (i : Nat) (h : i < n) :
    ((List.range n).map f).getD i false = f i := by
  rw [List.getD_eq_getElem?_getD]
  simp [List.getElem?_map, List.getElem?_range, h]

/-- Existence over column positions of a selection equals existence
over the selected column indices. -/
theorem range_any_getD (S : List Nat) (p : Nat → Bool) :
    ((List.range S.length).any fun jj => p (S.getD jj 0)) = S.any p := by
  rw [Bool.eq_iff_iff]
  simp only [List.any_eq_true, List.mem_range]
  constructor
  · rintro ⟨jj, hjj, hp⟩
    have hg : S.getD jj 0 = S[jj] := List.getD_eq_getElem S 0 hjj
    exact ⟨S[jj], List.getElem_mem hjj, hg ▸ hp⟩
  · rintro ⟨x, hx, hp⟩
    obtain ⟨jj, hjj, rfl⟩ := List.getElem_of_mem hx
    have hg : S.getD jj 0 = S[jj] := List.getD_eq_getElem S 0 hjj
    exact ⟨jj, hjj, hg ▸ hp⟩

/-- src_mask with an explicit destination-port selection computes, for
each source row, whether the sum over every parameter matrix of the
direction is nonzero at some selected column. -/
theorem src_mask_sum_spec (c : BaseConnectivity) (s d : String)
    (S : List Nat) (ks : List Key) (nSrc nDst : Nat) (f : Key → Mat)
    (hne2 : ¬(s = emptyS ∧ d = emptyS))
    (hv : validate_mod_names c s d = .ok ())
    (hks : keysFor c s d = .ok ks)
    (hlk : ∀ k ∈ ks, lookupD c.data k = some (f k))
    (hrows : ∀ k ∈ ks, (f k).rows = nSrc)
    (hcols : ∀ k ∈ ks, (f k).cols = nDst)
    (hkne : ks ≠ [])
    (hS : ∀ j ∈ S, j < nDst) :
    src_mask c s d (some S) = .ok ((List.range nSrc).map (fun i =>
      S.any (fun j =>
        decide (((ks.map (fun k => (f k).entries i j)).sum) ≠ 0)))) := by
  have hsel : ∀ k ∈ ks, selectColsE (some S) (f k)
      = .ok ⟨(f k).rows, S.length,
          fun i jj => (f k).entries i (S.getD jj 0)⟩ := by
    intro k hk
    have hall : S.all (fun j => decide (j < (f k).cols)) = true := by
      rw [List.all_eq_true]
      intro j hj
      rw [hcols k hk]
      exact decide_eq_true (hS j hj)
    simp [selectColsE, hall]
  have hmats := getSelMats_ok c.data (selectColsE (some S)) ks f
    (fun k => ⟨(f k).rows, S.length,
      fun i jj => (f k).entries i (S.getD jj 0)⟩) hlk hsel
  obtain ⟨k0, krest, rfl⟩ : ∃ k0 krest, ks = k0 :: krest := by
    cases ks with
    | nil => exact absurd rfl hkne
    | cons a l => exact ⟨a, l, rfl⟩
  have hbody :
      (match (fun k : Key => (⟨(f k).rows, S.length,
          fun i jj => (f k).entries i (S.getD jj 0)⟩ : Mat)) k0 ::
          krest.map (fun k => ⟨(f k).rows, S.length,
            fun i jj => (f k).entries i (S.getD jj 0)⟩) with
        | [] => Except.error Err.ValueErr
        | m0 :: rest =>
          Except.ok ((List.range (rest.foldl addMat m0).rows).map (fun i =>
            (List.range (rest.foldl addMat m0).cols).any (fun jj =>
              decide ((rest.foldl addMat m0).entries i jj ≠ 0)))))
      = Except.ok ((List.range nSrc).map (fun i =>
          S.any (fun j =>
            decide ((((k0 :: krest).map
              (fun k => (f k).entries i j)).sum) ≠ 0)))) := by
    have hrows0 : ((krest.map (fun k => (⟨(f k).rows, S.length,
        fun i jj => (f k).entries i (S.getD jj 0)⟩ : Mat))).foldl addMat
          ⟨(f k0).rows, S.length,
            fun i jj => (f k0).entries i (S.getD jj 0)⟩).rows = nSrc := by
      rw [foldl_addMat_rows]
      exact hrows k0 (List.mem_cons_self k0 krest)
    have hcols0 : ((krest.map (fun k => (⟨(f k).rows, S.length,
        fun i jj => (f k).entries i (S.getD jj 0)⟩ : Mat))).foldl addMat
          ⟨(f k0).rows, S.length,
            fun i jj => (f k0).entries i (S.getD jj 0)⟩).cols = S.length := by
      rw [foldl_addMat_cols]
    have hent : ∀ i jj, ((krest.map (fun k => (⟨(f k).rows, S.length,
        fun i jj => (f k).entries i (S.getD jj 0)⟩ : Mat))).foldl addMat
          ⟨(f k0).rows, S.length,
            fun i jj => (f k0).entries i (S.getD jj 0)⟩).entries i jj
        = ((k0 :: krest).map
            (fun k => (f k).entries i (S.getD jj 0))).sum := by
      intro i jj
      rw [foldl_addMat_entries, List.map_map, List.map_cons, List.sum_cons]
      rfl
    simp only []
    rw [hrows0, hcols0]
    congr 1
    apply List.map_congr_left
    intro i _
    have hstep : ∀ jj, (decide ((((krest.map (fun k => (⟨(f k).rows,
        S.length, fun i jj => (f k).entries i (S.getD jj 0)⟩ : Mat))).foldl
          addMat ⟨(f k0).rows, S.length,
            fun i jj => (f k0).entries i (S.getD jj 0)⟩).entries i jj ≠ 0)))
        = (fun j => decide ((((k0 :: krest).map
            (fun k => (f k).entries i j)).sum) ≠ 0)) (S.getD jj 0) := by
      intro jj
      rw [hent i jj]
    calc (List.range S.length).any (fun jj =>
            decide ((((krest.map (fun k => (⟨(f k).rows, S.length,
              fun i jj => (f k).entries i (S.getD jj 0)⟩ : Mat))).foldl
                addMat ⟨(f k0).rows, S.length,
                  fun i jj => (f k0).entries i (S.getD jj 0)⟩).entries i jj
                ≠ 0)))
        = (List.range S.length).any (fun jj =>
            (fun j => decide ((((k0 :: krest).map
              (fun k => (f k).entries i j)).sum) ≠ 0)) (S.getD jj 0)) :=
          congrArg (List.range S.length).any (funext hstep)
      _ = S.any (fun j => decide ((((k0 :: krest).map
            (fun k => (f k).entries i j)).sum) ≠ 0)) :=
          range_any_getD S (fun j => decide ((((k0 :: krest).map
            (fun k => (f k).entries i j)).sum) ≠ 0))
  simp only [src_mask, Bind.bind, Except.bind]
  rw [if_neg hne2, hv]
  simp only [Pure.pure, Except.pure]
  rw [hks]
  dsimp only
  rw [hmats]
  exact hbody

/-- Unpack a true keyMatOk check into the dereferenced matrix and its
shape facts. -/
theorem keyMatOk_elim (dd : List (Key × Mat)) (r cl : Nat) (k : Key)
    (h : keyMatOk dd r cl k = true) :
    lookupD dd k = some ((lookupD dd k).getD (zeroMat 0 0)) ∧
    ((lookupD dd k).getD (zeroMat 0 0)).rows = r ∧
    ((lookupD dd k).getD (zeroMat 0 0)).cols = cl := by
  rcases hc : lookupD dd k with _ | m
  · simp only [keyMatOk, hc] at h
    exact absurd h (by decide)
  · simp only [keyMatOk, hc, decide_eq_true_eq] at h
    refine ⟨?_, ?_, ?_⟩
    · simp only [Option.getD_some]
    · simp only [Option.getD_some]
      exact h.1
    · simp only [Option.getD_some]
      exact h.2

/-- C4 counterexample: exC4 has its only nonzero in the parameter
matrix w, while every 'conn' adjacency entry is zero.  The source mask
ORs over all parameter matrices of the direction, so src_idx reports
port 0, but the claimed set — built from the 'conn' matrices only — is
empty. -/
theorem src_idx_conn_only_counterexample :
    src_idx exC4 idA idB (some [0]) = .ok [0] ∧
    specSrcIdx exC4 idA idB [0] = [] ∧
    ¬ src_idx exC4 idA idB (some [0])
        = .ok (specSrcIdx exC4 idA idB [0]) := by
  refine ⟨?_, ?_, ?_⟩ <;> decide

/-- C4 (amended): for a well-formed connectivity and a valid direction,
src_idx with destination selection S returns exactly the sorted set of
source ports i for which the SUM over every parameter matrix of the
direction (not just the 'conn' adjacency matrices) is nonzero at (i, j)
for some j in S; a parameter value that cancels the sum therefore hides
a connection, and a nonzero in any non-conn parameter matrix creates
one. -/
theorem src_idx_sum_all_params_spec (c : BaseConnectivity) (s d : String)
    (S : List Nat)
    (hvalid : (s = c.A_id ∧ d = c.B_id) ∨ (s = c.B_id ∧ d = c.A_id))
    (hes : ¬(s = emptyS ∧ d = emptyS))
    (hAB : c.A_id ≠ c.B_id)
    (hwm : wfMats c = true)
    (hkne : dirKeys c s d ≠ [])
    (hS : ∀ j ∈ S, j < (if s = c.A_id then c.N_B else c.N_A)) :
    src_idx c s d (some S) =
      .ok ((List.range (if s = c.A_id then c.N_A else c.N_B)).filter
        (fun i => S.any (fun j => decide (dirEntrySum c s d i j ≠ 0)))) := by
  rw [wfMats, Bool.and_eq_true] at hwm
  obtain ⟨hwAB, hwBA⟩ := hwm
  rcases hvalid with ⟨hsA, hdB⟩ | ⟨hsB, hdA⟩
  · subst hsA
    subst hdB
    have hv : validate_mod_names c c.A_id c.B_id = .ok () := by
      simp [validate_mod_names]
    have hks : keysFor c c.A_id c.B_id = .ok c.keysAB := by
      simp [keysFor]
    have hdk : dirKeys c c.A_id c.B_id = c.keysAB := by
      simp [dirKeys]
    have hlk : ∀ k ∈ c.keysAB, lookupD c.data k
        = some ((lookupD c.data k).getD (zeroMat 0 0)) :=
      fun k hk =>
        (keyMatOk_elim c.data c.N_A c.N_B k (List.all_eq_true.mp hwAB k hk)).1
    have hrows : ∀ k ∈ c.keysAB,
        ((lookupD c.data k).getD (zeroMat 0 0)).rows = c.N_A :=
      fun k hk =>
        (keyMatOk_elim c.data c.N_A c.N_B k
          (List.all_eq_true.mp hwAB k hk)).2.1
    have hcols : ∀ k ∈ c.keysAB,
        ((lookupD c.data k).getD (zeroMat 0 0)).cols = c.N_B :=
      fun k hk =>
        (keyMatOk_elim c.data c.N_A c.N_B k
          (List.all_eq_true.mp hwAB k hk)).2.2
    have hkeysne : c.keysAB ≠ [] := by
      rw [hdk] at hkne
      exact hkne
    have hS2 : ∀ j ∈ S, j < c.N_B := by
      simpa using hS
    have hmask := src_mask_sum_spec c c.A_id c.B_id S c.keysAB c.N_A c.N_B
      (fun k => (lookupD c.data k).getD (zeroMat 0 0)) hes hv hks hlk hrows
      hcols hkeysne hS2
    simp only [src_idx, Bind.bind, Except.bind]
    rw [if_neg hes, hv]
    dsimp only
    rw [hmask]
    dsimp only
    rw [show N c c.A_id = .ok c.N_A by simp [N]]
    dsimp only
    simp only [if_true, eq_self_iff_true, if_pos]
    congr 1
    apply List.filter_congr
    intro i hi
    rw [range_map_getD _ _ i (List.mem_range.mp hi)]
    have hfun : ∀ j : Nat,
        decide (((c.keysAB.map (fun k =>
          ((lookupD c.data k).getD (zeroMat 0 0)).entries i j)).sum) ≠ 0)
        = decide (dirEntrySum c c.A_id c.B_id i j ≠ 0) := by
      intro j
      have hsum : (c.keysAB.map (fun k =>
          ((lookupD c.data k).getD (zeroMat 0 0)).entries i j)).sum
          = dirEntrySum c c.A_id c.B_id i j := by
        rw [dirEntrySum, hdk]
        congr 1
        apply List.map_congr_left
        intro k hk
        rw [hlk k hk]
        simp
      rw [hsum]
    exact congrArg S.any (funext hfun)
  · subst hsB
    subst hdA
    have hBA : ¬ (c.B_id = c.A_id) := fun h => hAB h.symm
    have hv : validate_mod_names c c.B_id c.A_id = .ok () := by
      simp [validate_mod_names]
    have hks : keysFor c c.B_id c.A_id = .ok c.keysBA := by
      simp [keysFor, Prod.ext_iff, hBA]
    have hdk : dirKeys c c.B_id c.A_id = c.keysBA := by
      simp [dirKeys, Prod.ext_iff, hBA]
    have hlk : ∀ k ∈ c.keysBA, lookupD c.data k
        = some ((lookupD c.data k).getD (zeroMat 0 0)) :=
      fun k hk =>
        (keyMatOk_elim c.data c.N_B c.N_A k (List.all_eq_true.mp hwBA k hk)).1
    have hrows : ∀ k ∈ c.keysBA,
        ((lookupD c.data k).getD (zeroMat 0 0)).rows = c.N_B :=
      fun k hk =>
        (keyMatOk_elim c.data c.N_B c.N_A k
          (List.all_eq_true.mp hwBA k hk)).2.1
    have hcols : ∀ k ∈ c.keysBA,
        ((lookupD c.data k).getD (zeroMat 0 0)).cols = c.N_A :=
      fun k hk =>
        (keyMatOk_elim c.data c.N_B c.N_A k
          (List.all_eq_true.mp hwBA k hk)).2.2
    have hkeysne : c.keysBA ≠ [] := by
      rw [hdk] at hkne
      exact hkne
    have hS2 : ∀ j ∈ S, j < c.N_A := by
      intro j hj
      have := hS j hj
      rwa [if_neg hBA] at this
    have hmask := src_mask_sum_spec c c.B_id c.A_id S c.keysBA c.N_B c.N_A
      (fun k => (lookupD c.data k).getD (zeroMat 0 0)) hes hv hks hlk hrows
      hcols hkeysne hS2
    simp only [src_idx, Bind.bind, Except.bind]
    rw [if_neg hes, hv]
    dsimp only
    rw [hmask]
    dsimp only
    rw [show N c c.B_id = .ok c.N_B by simp [N, hBA]]
    dsimp only
    rw [if_neg hBA]
    congr 1
    apply List.filter_congr
    intro i hi
    rw [range_map_getD _ _ i (List.mem_range.mp hi)]
    have hfun : ∀ j : Nat,
        decide (((c.keysBA.map (fun k =>
          ((lookupD c.data k).getD (zeroMat 0 0)).entries i j)).sum) ≠ 0)
        = decide (dirEntrySum c c.B_id c.A_id i j ≠ 0) := by
      intro j
      have hsum : (c.keysBA.map (fun k =>
          ((lookupD c.data k).getD (zeroMat 0 0)).entries i j)).sum
          = dirEntrySum c c.B_id c.A_id i j := by
        rw [dirEntrySum, hdk]
        congr 1
        apply List.map_congr_left
        intro k hk
        rw [hlk k hk]
        simp
      rw [hsum]
    exact congrArg S.any (funext hfun)

/-- Witness for C4 on exC4, direction A to B, destination selection
[0]: the hypotheses hold and src_idx equals the sum-over-all-parameter
characterization. -/
theorem src_idx_sum_all_params_spec_witness :
    (((idA = exC4.A_id ∧ idB = exC4.B_id) ∨
        (idA = exC4.B_id ∧ idB = exC4.A_id)) ∧
      ¬(idA = emptyS ∧ idB = emptyS) ∧ exC4.A_id ≠ exC4.B_id ∧
      wfMats exC4 = true ∧ dirKeys exC4 idA idB ≠ [] ∧
      ∀ j ∈ ([0] : List Nat),
        j < (if idA = exC4.A_id then exC4.N_B else exC4.N_A)) ∧
    src_idx exC4 idA idB (some [0]) =
      .ok ((List.range (if idA = exC4.A_id then exC4.N_A else exC4.N_B)).filter
        (fun i => ([0] : List Nat).any
          (fun j => decide (dirEntrySum exC4 idA idB i j ≠ 0)))) :=
  ⟨⟨Or.inl (by decide), by decide, by decide, by decide, by decide,
      by decide⟩,
    src_idx_sum_all_params_spec exC4 idA idB [0] (Or.inl (by decide))
      (by decide) (by decide) (by decide) (by decide) (by decide)⟩

/-- Reversing the direction of a key twice is the identity. -/
theorem flipKey_flipKey (k : Key) : flipKey (flipKey k) = k := rfl

/-- A key outside the dict's key list dereferences to none. -/
theorem lookupD_eq_none (d : List (Key × Mat)) (k : Key)
    (h : k ∉ d.map Prod.fst) : lookupD d k = none := by
  induction d with
  | nil => rfl
  | cons p rest ih =>
    simp only [List.map_cons, List.mem_cons] at h
    push_neg at h
    have hne : ¬ (p.1 = k) := fun hh => h.1 hh.symm
    simp [lookupD, hne, ih h.2]

/-- dirOkKeys is symmetric in the two module IDs. -/
theorem dirOkKeys_swap (aId bId : String) (d : List (Key × Mat)) :
    dirOkKeys bId aId d = dirOkKeys aId bId d := by
  unfold dirOkKeys
  congr 1
  funext p
  exact decide_eq_decide.mpr or_comm

/-- A dict assignment with a direction-respecting key preserves
dirOkKeys. -/
theorem dirOkKeys_dictSet (aId bId : String) (d : List (Key × Mat))
    (k : Key) (m : Mat)
    (hd : dirOkKeys aId bId d = true)
    (hk : (k.1, k.2.1) = (aId, bId) ∨ (k.1, k.2.1) = (bId, aId)) :
    dirOkKeys aId bId (dictSet d k m) = true := by
  induction d with
  | nil =>
    show dirOkKeys aId bId [(k, m)] = true
    simp only [dirOkKeys, List.all_cons, List.all_nil, Bool.and_true]
    exact decide_eq_true hk
  | cons p rest ih =>
    simp only [dirOkKeys, List.all_cons, Bool.and_eq_true] at hd
    by_cases hpk : p.1 = k
    · rw [show dictSet (p :: rest) k m = (k, m) :: rest by
        simp [dictSet, hpk]]
      simp only [dirOkKeys, List.all_cons, Bool.and_eq_true]
      refine ⟨decide_eq_true hk, hd.2⟩
    · rw [show dictSet (p :: rest) k m = p :: dictSet rest k m by
        simp [dictSet, hpk]]
      simp only [dirOkKeys, List.all_cons, Bool.and_eq_true]
      exact ⟨hd.1, ih hd.2⟩

/-- The transpose loop succeeds on a direction-respecting dict with
distinct keys; its resulting dict maps every key to the transposed
matrix of the flipped original key, falling back to the initial dict,
and preserves key distinctness and direction respect of the
accumulator. -/
theorem transposeLoop_spec (bId aId : String) (hab : aId ≠ bId) :
    ∀ d : List (Key × Mat), (d.map Prod.fst).Nodup →
      dirOkKeys aId bId d = true →
      ∀ acc : List (Key × Mat) × List Key × List Key,
      ∃ r, transposeLoop bId aId d acc = .ok r ∧
        (∀ k : Key, lookupD r.1 k =
          match lookupD d (flipKey k) with
          | some m => some (matT m)
          | none => lookupD acc.1 k) ∧
        ((acc.1.map Prod.fst).Nodup → (r.1.map Prod.fst).Nodup) ∧
        (dirOkKeys aId bId acc.1 = true →
          dirOkKeys aId bId r.1 = true) := by
  intro d
  induction d with
  | nil =>
    intro _ _ acc
    exact ⟨acc, rfl, fun k => rfl, id, id⟩
  | cons p rest ih =>
    intro hnd hdir acc
    rw [List.map_cons, List.nodup_cons] at hnd
    have hdir_head : ((p.1.1, p.1.2.1) = (aId, bId) ∨
        (p.1.1, p.1.2.1) = (bId, aId)) := by
      have h := List.all_eq_true.mp hdir p (List.mem_cons_self p rest)
      exact of_decide_eq_true h
    have hdir_rest : dirOkKeys aId bId rest = true := by
      apply List.all_eq_true.mpr
      intro x hx
      exact List.all_eq_true.mp hdir x (List.mem_cons_of_mem p hx)
    have hkdir : ((flipKey p.1).1, (flipKey p.1).2.1) = (aId, bId) ∨
        ((flipKey p.1).1, (flipKey p.1).2.1) = (bId, aId) := by
      rcases hdir_head with h | h
      · right
        show (p.1.2.1, p.1.1) = (bId, aId)
        have hc1 : p.1.1 = aId := congrArg Prod.fst h
        have hc2 : p.1.2.1 = bId := congrArg Prod.snd h
        rw [hc1, hc2]
      · left
        show (p.1.2.1, p.1.1) = (aId, bId)
        have hc1 : p.1.1 = bId := congrArg Prod.fst h
        have hc2 : p.1.2.1 = aId := congrArg Prod.snd h
        rw [hc1, hc2]
    have hstep : ∃ ka kb, transposeLoop bId aId (p :: rest) acc
        = transposeLoop bId aId rest
          (dictSet acc.1 (flipKey p.1) (matT p.2), ka, kb) := by
      rcases hkdir with h | h
      · refine ⟨acc.2.1, acc.2.2 ++ [flipKey p.1], ?_⟩
        have hcnot : ¬ (((flipKey p.1).1, (flipKey p.1).2.1)
            = (bId, aId)) := by
          rw [h]
          intro hh
          exact hab (congrArg Prod.fst hh)
        simp only [transposeLoop]
        rw [if_neg hcnot, if_pos h]
      · refine ⟨acc.2.1 ++ [flipKey p.1], acc.2.2, ?_⟩
        simp only [transposeLoop]
        rw [if_pos h]
    obtain ⟨ka, kb, hstep⟩ := hstep
    obtain ⟨r, hr, hlook, hnodup, hdirok⟩ :=
      ih hnd.2 hdir_rest (dictSet acc.1 (flipKey p.1) (matT p.2), ka, kb)
    refine ⟨r, by rw [hstep]; exact hr, ?_, ?_, ?_⟩
    · intro k2
      rw [hlook k2]
      by_cases hhit : flipKey k2 = p.1
      · have hr0 : lookupD rest (flipKey k2) = none := by
          rw [hhit]
          exact lookupD_eq_none rest p.1 hnd.1
        rw [hr0]
        rw [lookupD_dictSet]
        have hkk : k2 = flipKey p.1 := by
          rw [← hhit, flipKey_flipKey]
        rw [if_pos hkk]
        have hhead : lookupD (p :: rest) (flipKey k2) = some p.2 := by
          simp [lookupD, hhit.symm]
        rw [hhead]
      · have hskip : lookupD (p :: rest) (flipKey k2)
            = lookupD rest (flipKey k2) := by
          have hne2 : ¬ (p.1 = flipKey k2) := fun h => hhit h.symm
          simp [lookupD, hne2]
        rw [hskip]
        rcases hr2 : lookupD rest (flipKey k2) with _ | m2
        · rw [lookupD_dictSet]
          rw [if_neg (fun h : k2 = flipKey p.1 =>
            hhit (by rw [h, flipKey_flipKey]))]
        · rfl
    · intro hacc
      exact hnodup (dictSet_nodup _ _ _ hacc)
    · intro hacc
      exact hdirok (dirOkKeys_dictSet aId bId acc.1 (flipKey p.1)
        (matT p.2) hacc hkdir)

/-- The constructor dict has distinct keys when the two module IDs
differ. -/
theorem mkRaw_nodup (nA nB nMult : Nat) (a b : String) (hab : a ≠ b) :
    (((mkRaw nA nB nMult a b).data).map Prod.fst).Nodup := by
  have hne : ¬(((a, b, 0, pConn) : Key) = (b, a, 0, pConn)) :=
    fun h => hab (congrArg (fun k : Key => k.1) h)
  simp [mkRaw, hne]

/-- Lookup in the _data dict of a freshly constructed connectivity,
for arbitrary distinct module IDs. -/
theorem mkRaw_lookup_gen (nA nB nMult : Nat) (a b : String) (hab : a ≠ b)
    (k : Key) :
    lookupD (mkRaw nA nB nMult a b).data k =
      if k = (a, b, 0, pConn) then some (zeroMat nA nB)
      else if k = (b, a, 0, pConn) then some (zeroMat nB nA)
      else none := by
  by_cases hx : k = ((a, b, 0, pConn) : Key)
  · subst hx
    simp [mkRaw, lookupD]
  · by_cases hy : k = ((b, a, 0, pConn) : Key)
    · subst hy
      have hne : ¬(((a, b, 0, pConn) : Key) = (b, a, 0, pConn)) :=
        fun h => hab (congrArg (fun kk : Key => kk.1) h)
      simp [mkRaw, lookupD, hne, hx]
    · simp [mkRaw, lookupD, hx, hy, Ne.symm hx, Ne.symm hy]

/-- The asserting constructor succeeds exactly on well-shaped inputs. -/
theorem mkChecked_ok (nA nB nMult : Nat) (a b : String) (h1 : nA ≠ 0)
    (h2 : nB ≠ 0) (h3 : nMult ≠ 0) (h4 : a ≠ b) (h5 : a ≠ emptyS)
    (h6 : b ≠ emptyS) :
    mkChecked nA nB nMult a b = .ok (mkRaw nA nB nMult a b) := by
  simp [mkChecked, h1, h2, h3, h4, h5, h6]

/-- transpose on a well-shaped, direction-respecting connectivity with
distinct dict keys: it succeeds, swaps the IDs and port counts, keeps
N_mult, and its dict maps every key to the transposed matrix stored at
the flipped key, falling back to the fresh constructor dict; key
distinctness and direction respect carry over to the result. -/
theorem transpose_spec (c : BaseConnectivity) (h1 : c.N_A ≠ 0)
    (h2 : c.N_B ≠ 0) (h3 : c.N_mult ≠ 0) (h4 : c.A_id ≠ c.B_id)
    (h5 : c.A_id ≠ emptyS) (h6 : c.B_id ≠ emptyS)
    (hnd : (c.data.map Prod.fst).Nodup)
    (hdir : dirOkKeys c.A_id c.B_id c.data = true) :
    ∃ c1, transpose c = .ok c1 ∧
      (∀ k : Key, lookupD c1.data k =
        match lookupD c.data (flipKey k) with
        | some m => some (matT m)
        | none =>
          lookupD (mkRaw c.N_B c.N_A c.N_mult c.B_id c.A_id).data k) ∧
      c1.A_id = c.B_id ∧ c1.B_id = c.A_id ∧ c1.N_A = c.N_B ∧
      c1.N_B = c.N_A ∧ c1.N_mult = c.N_mult ∧
      (c1.data.map Prod.fst).Nodup ∧
      dirOkKeys c1.A_id c1.B_id c1.data = true := by
  have hmk := mkChecked_ok c.N_B c.N_A c.N_mult c.B_id c.A_id h2 h1 h3
    (fun h => h4 h.symm) h6 h5
  obtain ⟨r, hr, hlook, hnodup, hdirok⟩ :=
    transposeLoop_spec c.B_id c.A_id h4 c.data hnd hdir
      ((mkRaw c.N_B c.N_A c.N_mult c.B_id c.A_id).data, [], [])
  have hctor : dirOkKeys c.A_id c.B_id
      (mkRaw c.N_B c.N_A c.N_mult c.B_id c.A_id).data = true := by
    simp [dirOkKeys, mkRaw]
  refine ⟨{ mkRaw c.N_B c.N_A c.N_mult c.B_id c.A_id with
      data := r.1, keysAB := r.2.1, keysBA := r.2.2 }, ?_, ?_, rfl, rfl,
      rfl, rfl, rfl, ?_, ?_⟩
  · simp only [transpose, Bind.bind, Except.bind, hmk, hr]
  · intro k
    exact hlook k
  · exact hnodup (mkRaw_nodup c.N_B c.N_A c.N_mult c.B_id c.A_id
      (fun h => h4 h.symm))
  · show dirOkKeys c.B_id c.A_id r.1 = true
    rw [dirOkKeys_swap]
    exact hdirok hctor

/-- Convert the constructor-fallback lookup characterization into the
map-through-flip form, given both base adjacency keys present. -/
theorem transpose_lookup_flip (c : BaseConnectivity)
    (h4 : c.A_id ≠ c.B_id)
    (hk1 : (lookupD c.data (c.A_id, c.B_id, 0, pConn)).isSome = true)
    (hk2 : (lookupD c.data (c.B_id, c.A_id, 0, pConn)).isSome = true)
    (dd : List (Key × Mat))
    (hl : ∀ k : Key, lookupD dd k =
        match lookupD c.data (flipKey k) with
        | some m => some (matT m)
        | none =>
          lookupD (mkRaw c.N_B c.N_A c.N_mult c.B_id c.A_id).data k) :
    ∀ k : Key, lookupD dd k = (lookupD c.data (flipKey k)).map matT := by
  intro k
  rw [hl k]
  rcases hc : lookupD c.data (flipKey k) with _ | m
  · rw [mkRaw_lookup_gen c.N_B c.N_A c.N_mult c.B_id c.A_id
      (fun h => h4 h.symm) k]
    by_cases hx : k = ((c.B_id, c.A_id, 0, pConn) : Key)
    · exfalso
      rw [hx] at hc
      rw [show flipKey ((c.B_id, c.A_id, 0, pConn) : Key)
          = (c.A_id, c.B_id, 0, pConn) from rfl] at hc
      rw [hc] at hk1
      simp at hk1
    · by_cases hy : k = ((c.A_id, c.B_id, 0, pConn) : Key)
      · exfalso
        rw [hy] at hc
        rw [show flipKey ((c.A_id, c.B_id, 0, pConn) : Key)
            = (c.B_id, c.A_id, 0, pConn) from rfl] at hc
        rw [hc] at hk2
        simp at hk2
      · rw [if_neg hx, if_neg hy]
        rfl
  · rfl

/-- A state holding a _data key outside the object's two directions —
reachable through set with both IDs empty, which stores the foreign
key in _data before raising — makes transpose raise KeyError, exactly
as the source does at c._keys_by_dir[new_dir]. -/
theorem transpose_foreign_key_raises :
    transpose ((set (mkRaw 1 1 1 idA idB) emptyS 0 emptyS 0 0 pW 1).1)
      = .error .KeyError := rfl

/-- Entry-wise equality of optional matrices is reflexive. -/
theorem OMatEqv_refl (o : Option Mat) : OMatEqv o o := by
  cases o
  · trivial
  · exact ⟨rfl, rfl, fun i j => rfl⟩

/-- C7: transposing a well-formed connectivity (constructor-invariant
shapes, distinct dict keys, both conn-0 adjacency keys present, every
stored key in one of the object's two directions — as in every state
not produced by the empty-ID set misuse, on which the source's
transpose raises KeyError) succeeds, swapping the two modules (IDs and
port counts), preserving N_mult, and storing every parameter matrix
transposed under the direction-flipped key; doing it twice restores an
object equal to the original in IDs, shape, N_mult, set of parameter
keys, and every stored matrix entry-wise. -/
theorem transpose_round_trip (c : BaseConnectivity)
    (h1 : c.N_A ≠ 0) (h2 : c.N_B ≠ 0) (h3 : c.N_mult ≠ 0)
    (h4 : c.A_id ≠ c.B_id) (h5 : c.A_id ≠ emptyS) (h6 : c.B_id ≠ emptyS)
    (hwf : wfKeys c)
    (hdir : dirOkKeys c.A_id c.B_id c.data = true) :
    ∃ c1 c2 : BaseConnectivity,
      transpose c = .ok c1 ∧ transpose c1 = .ok c2 ∧
      c1.A_id = c.B_id ∧ c1.B_id = c.A_id ∧ c1.N_A = c.N_B ∧
      c1.N_B = c.N_A ∧ c1.N_mult = c.N_mult ∧
      (∀ k : Key, OMatEqv (lookupD c1.data (flipKey k))
        ((lookupD c.data k).map matT)) ∧
      c2.A_id = c.A_id ∧ c2.B_id = c.B_id ∧ c2.N_A = c.N_A ∧
      c2.N_B = c.N_B ∧ c2.N_mult = c.N_mult ∧
      (∀ k : Key, (lookupD c2.data k).isSome = (lookupD c.data k).isSome) ∧
      (∀ k : Key, OMatEqv (lookupD c2.data k) (lookupD c.data k)) := by
  obtain ⟨hnd, hk1, hk2⟩ := hwf
  obtain ⟨c1, ht1, hl1, hA1, hB1, hNA1, hNB1, hNm1, hnd1, hdir1⟩ :=
    transpose_spec c h1 h2 h3 h4 h5 h6 hnd hdir
  have hl1' := transpose_lookup_flip c h4 hk1 hk2 c1.data hl1
  have hk1' : (lookupD c1.data (c1.A_id, c1.B_id, 0, pConn)).isSome
      = true := by
    have he : ((c1.A_id, c1.B_id, 0, pConn) : Key)
        = (c.B_id, c.A_id, 0, pConn) := by
      rw [hA1, hB1]
    rw [he, hl1' (c.B_id, c.A_id, 0, pConn)]
    rw [show flipKey ((c.B_id, c.A_id, 0, pConn) : Key)
        = (c.A_id, c.B_id, 0, pConn) from rfl]
    obtain ⟨m, hm⟩ := Option.isSome_iff_exists.mp hk1
    rw [hm]
    rfl
  have hk2' : (lookupD c1.data (c1.B_id, c1.A_id, 0, pConn)).isSome
      = true := by
    have he : ((c1.B_id, c1.A_id, 0, pConn) : Key)
        = (c.A_id, c.B_id, 0, pConn) := by
      rw [hA1, hB1]
    rw [he, hl1' (c.A_id, c.B_id, 0, pConn)]
    rw [show flipKey ((c.A_id, c.B_id, 0, pConn) : Key)
        = (c.B_id, c.A_id, 0, pConn) from rfl]
    obtain ⟨m, hm⟩ := Option.isSome_iff_exists.mp hk2
    rw [hm]
    rfl
  have h4' : c1.A_id ≠ c1.B_id := by
    rw [hA1, hB1]
    exact fun h => h4 h.symm
  obtain ⟨c2, ht2, hl2, hA2, hB2, hNA2, hNB2, hNm2, hnd2, hdir2⟩ :=
    transpose_spec c1 (by rw [hNA1]; exact h2) (by rw [hNB1]; exact h1)
      (by rw [hNm1]; exact h3) h4' (by rw [hA1]; exact h6)
      (by rw [hB1]; exact h5) hnd1 hdir1
  have hl2' := transpose_lookup_flip c1 h4' hk1' hk2' c2.data hl2
  refine ⟨c1, c2, ht1, ht2, hA1, hB1, hNA1, hNB1, hNm1, ?_,
    hA2.trans hB1, hB2.trans hA1, hNA2.trans hNB1, hNB2.trans hNA1,
    hNm2.trans hNm1, ?_, ?_⟩
  · intro k
    rw [hl1' (flipKey k), flipKey_flipKey]
    exact OMatEqv_refl _
  · intro k
    rw [hl2' k, hl1' (flipKey k), flipKey_flipKey]
    rcases lookupD c.data k with _ | m <;> rfl
  · intro k
    rw [hl2' k, hl1' (flipKey k), flipKey_flipKey]
    rcases lookupD c.data k with _ | m
    · trivial
    · exact ⟨rfl, rfl, fun i j => rfl⟩

/-- Witness for C7 on a concrete 1x2 connectivity. -/
theorem transpose_round_trip_witness :
    (exC7.N_A ≠ 0 ∧ exC7.N_B ≠ 0 ∧ exC7.N_mult ≠ 0 ∧
      exC7.A_id ≠ exC7.B_id ∧ exC7.A_id ≠ emptyS ∧ exC7.B_id ≠ emptyS ∧
      wfKeys exC7 ∧
      dirOkKeys exC7.A_id exC7.B_id exC7.data = true) ∧
    (∃ c1 c2 : BaseConnectivity,
      transpose exC7 = .ok c1 ∧ transpose c1 = .ok c2 ∧
      c1.A_id = exC7.B_id ∧ c1.B_id = exC7.A_id ∧ c1.N_A = exC7.N_B ∧
      c1.N_B = exC7.N_A ∧ c1.N_mult = exC7.N_mult ∧
      (∀ k : Key, OMatEqv (lookupD c1.data (flipKey k))
        ((lookupD exC7.data k).map matT)) ∧
      c2.A_id = exC7.A_id ∧ c2.B_id = exC7.B_id ∧ c2.N_A = exC7.N_A ∧
      c2.N_B = exC7.N_B ∧ c2.N_mult = exC7.N_mult ∧
      (∀ k : Key, (lookupD c2.data k).isSome
        = (lookupD exC7.data k).isSome) ∧
      (∀ k : Key, OMatEqv (lookupD c2.data k) (lookupD exC7.data k))) :=
  ⟨⟨by decide, by decide, by decide, by decide, by decide, by decide,
      ⟨by decide, by decide, by decide⟩, by decide⟩,
    transpose_round_trip exC7 (by decide) (by decide) (by decide)
      (by decide) (by decide) (by decide)
      ⟨by decide, by decide, by decide⟩ (by decide)⟩

end Neurokernel
